import Mathlib

/-!
Verification of the ceph-csi network-fencing and volume-encryption core.

This file shallowly embeds the two source files of the repository:
  * internal/csi-addons/networkfence/fencing.go  (address-range expansion,
    blocklisting with capability fallback, client eviction, descriptor parsing)
  * the rbd encryption file (encryption state metadata, DEK store, key rotation)

Go byte slices are modelled as `List Nat` with every element `< 256`
(arithmetic is explicit `% 256` where Go bytes overflow); Go errors are
modelled with `Except`/`Option`; external collaborators (the ceph command
gateway, the KMS, the LUKS wrapper, the distributed lock) are modelled as
explicit oracles/state that the embedded control flow drives.
-/

set_option maxRecDepth 20000

namespace CephCsi

/-! ## Byte-vector IP model (Go `net.IP`, 4-byte IPv4 form)

Go's `net.ParseCIDR` on an IPv4 CIDR yields a 4-byte masked network address
and a 4-byte mask; the loop in `getIPRange` works on these 4-byte values.
-/

/-- `incIP` from fencing.go: increment a byte-vector address in place,
last byte first, propagating the carry while a byte wraps to zero.
Go's `ip[j]++` on a `byte` wraps modulo 256. This helper works on the
reversed byte list (Go iterates from the last byte backwards). -/
def incBytesRev : List Nat → List Nat
  | [] => []
  | b :: rest =>
    if (b + 1) % 256 = 0 then 0 :: incBytesRev rest
    else ((b + 1) % 256) :: rest

/-- `incIP` from fencing.go, on the byte vector in its usual order. -/
def incIP (ip : List Nat) : List Nat := (incBytesRev ip.reverse).reverse

/-- One byte of a Go `net.CIDRMask`: `k` leading one bits, `0 ≤ k ≤ 8`
(`^byte(0xff >> k)` in Go). -/
def maskByte (k : Nat) : Nat := 256 - 2 ^ (8 - k)

/-- Go `net.CIDRMask(n, 32)` as a 4-byte vector. -/
def cidrMask (n : Nat) : List Nat :=
  [maskByte (min n 8), maskByte (min (n - 8) 8),
   maskByte (min (n - 16) 8), maskByte (min (n - 24) 8)]

/-- Go `IP.Mask`: byte-wise AND of an address with a mask. -/
def maskIP (ip m : List Nat) : List Nat := List.zipWith (· &&& ·) ip m

/-- Go `IPNet.Contains` for equal-length byte vectors: the address agrees
with the (already masked) network number on all mask bits. -/
def containsIP (network m ip : List Nat) : Bool :=
  decide (maskIP network m = maskIP ip m) && decide (network.length = ip.length)

/-- The 4-byte big-endian decomposition of a value `< 2^32`. -/
def bytes4 (v : Nat) : List Nat :=
  [v / 2 ^ 24 % 256, v / 2 ^ 16 % 256, v / 2 ^ 8 % 256, v % 256]

/-- Recompose a 4-byte vector into its value. -/
def bytesVal : List Nat → Nat
  | [] => 0
  | b :: rest => b * 256 ^ rest.length + bytesVal rest

/-- The network part of `v` under an `n`-bit prefix mask, as a value. -/
def maskNat (n v : Nat) : Nat := v / 2 ^ (32 - n) * 2 ^ (32 - n)

/-! ## String-parsing infrastructure shared by the embedded Go parsers. -/

/-- Decimal value of a digit list (Go accumulates `n = n*10 + d`). -/
def digitsVal (l : List Char) : Nat :=
  l.foldl (fun a c => a * 10 + (c.toNat - '0'.toNat)) 0

/-- Split a character list at every occurrence of `sep`
(like Go `strings.Split` on a one-character separator). -/
def splitOnChar (sep : Char) : List Char → List (List Char)
  | [] => [[]]
  | c :: t =>
    if c = sep then [] :: splitOnChar sep t
    else
      match splitOnChar sep t with
      | [] => [[c]]
      | f :: rest => (c :: f) :: rest

/-- One dotted-decimal IPv4 field, Go `netip` rules: 1-3 decimal digits,
no leading zero (except "0" itself), value at most 255. -/
def parseV4Field (l : List Char) : Option Nat :=
  if l.isEmpty then none
  else if !(l.all Char.isDigit) then none
  else if l.length > 3 then none
  else if l.length > 1 && (l.head? == some '0') then none
  else if digitsVal l > 255 then none
  else some (digitsVal l)

/-- Go `netip.ParseAddr` on a dotted-quad IPv4 literal, yielding the four
byte values. -/
def parseIPv4Chars (l : List Char) : Option (List Nat) :=
  match splitOnChar '.' l with
  | [a, b, c, d] =>
    match parseV4Field a, parseV4Field b, parseV4Field c, parseV4Field d with
    | some x, some y, some z, some t => some [x, y, z, t]
    | _, _, _, _ => none
  | _ => none

/-- The prefix-length part after `/` in `net.ParseCIDR`: Go `dtoi` must
consume the whole string and the caller requires the value to be at most
the address bit length (32 here). `dtoi`'s overflow cutoff only rejects
values that the `≤ 32` bound rejects anyway. -/
def parseMaskLen (l : List Char) : Option Nat :=
  if l.isEmpty then none
  else if !(l.all Char.isDigit) then none
  else if digitsVal l > 32 then none
  else some (digitsVal l)

/-- Split at the first occurrence of `sep`, if any. -/
def splitFirst (sep : Char) : List Char → Option (List Char × List Char)
  | [] => none
  | c :: t =>
    if c = sep then some ([], t)
    else
      match splitFirst sep t with
      | none => none
      | some (a, b) => some (c :: a, b)

/-- Go `net.ParseCIDR` restricted to IPv4 (the repository's fencing requests
carry IPv4 CIDRs; the IPv6 textual form is outside this embedding): returns
the unmasked address bytes and the prefix length. -/
def parseCIDR (s : String) : Option (List Nat × Nat) :=
  match splitFirst '/' s.data with
  | none => none
  | some (addr, mask) =>
    match parseIPv4Chars addr, parseMaskLen mask with
    | some bytes, some n => some (bytes, n)
    | _, _ => none

/-- Go `IP.String()` on a 4-byte address: dotted decimal. -/
def ipString (ip : List Nat) : String :=
  String.intercalate "." (ip.map (fun b => toString b))

/-! ## `getIPRange` from fencing.go

The Go loop `for ip := netIP.Mask(ipnet.Mask); ipnet.Contains(ip); incIP(ip)`
is given explicit fuel: `none` models a run that never leaves the loop
(the Go code would never return). -/

/-- The enumeration loop of `getIPRange`. -/
def ipRangeLoop (network m : List Nat) : Nat → List Nat → Option (List String)
  | 0, _ => none
  | fuel + 1, ip =>
    if containsIP network m ip then
      match ipRangeLoop network m fuel (incIP ip) with
      | some rest => some (ipString ip :: rest)
      | none => none
    else some []

/-- `getIPRange` from fencing.go: parse the CIDR, mask the base address to
the network boundary, then collect `ip.String()` while the block contains
the address. `.error` is the Go error return; `.ok none` marks the
non-terminating runs. -/
def getIPRange (cidr : String) : Except String (Option (List String)) :=
  match parseCIDR cidr with
  | none => .error ("invalid CIDR address: " ++ cidr)
  | some (bytes, n) =>
    let m := cidrMask n
    let network := maskIP bytes m
    .ok (ipRangeLoop network m (2 ^ 32 + 1) network)

/-! ## Blocklist controller (`AddNetworkFence` from fencing.go)

The ceph command gateway is an external collaborator: it is modelled as an
oracle mapping each blocklist command to `none` (success) or the error that
`util.ExecCommand` reports. -/

/-- `invalidCommandStr` from fencing.go. -/
def invalidCommandStr : String := "invalid command"

/-- `blocklistTime` from fencing.go (the 5-year stand-in for "indefinite"). -/
def blocklistTime : String := "157784760"

/-- A blocklist-add command: `osd blocklist range add <cidr> <time>` or
`osd blocklist add <ip> <time>`. -/
inductive BlockCmd
  | rangeAdd (cidr : String)
  | addrAdd (ip : String)
deriving DecidableEq

/-- The gateway oracle for blocklist commands: `some e` is the failure that
`util.ExecCommand` reports (error text and stderr). -/
def Gateway := BlockCmd → Option (String × String)

/-- Go `strings.Contains` on character lists. -/
def containsSub : List Char → List Char → Bool
  | _, [] => true
  | [], _ :: _ => false
  | c :: t, s :: ss => (s :: ss).isPrefixOf (c :: t) || containsSub t (s :: ss)

/-- Go `strings.Contains`. -/
def containsStr (s sub : String) : Bool := containsSub s.data sub.data

/-- Go `%q` formatting, restricted to the plain strings that occur here. -/
def goQuote (s : String) : String := "\"" ++ s ++ "\""

/-- The wrapped error built by `addCephBlocklist`:
`"failed to blocklist IP %q: %w stderr: %q"`. -/
def blocklistErr (ip : String) (e : String × String) : String :=
  "failed to blocklist IP " ++ goQuote ip ++ ": " ++ e.1 ++ " stderr: " ++ goQuote e.2

/-- `addCephBlocklist` from fencing.go: one gateway command, with the error
wrapped as in the source. -/
def addCephBlocklist (gw : Gateway) (ip : String) (useRange : Bool) :
    Except String Unit :=
  match gw (if useRange then .rangeAdd ip else .addrAdd ip) with
  | none => .ok ()
  | some e => .error (blocklistErr ip e)

/-- The inner per-address loop of `AddNetworkFence`: block every host,
aborting on the first error; the issued commands are recorded. -/
def blockHosts (gw : Gateway) : List String → Except String Unit × List BlockCmd
  | [] => (.ok (), [])
  | h :: t =>
    match addCephBlocklist gw h false with
    | .ok _ =>
      let r := blockHosts gw t
      (r.1, .addrAdd h :: r.2)
    | .error e => (.error e, [.addrAdd h])

/-- `AddNetworkFence` from fencing.go, with the issued commands recorded.
The boolean is `hasBlocklistRangeSupport`.  `none` in the first component
marks a run in which the Go code never returns (`getIPRange` on a /0 CIDR,
see C8). -/
def addFenceLoop (gw : Gateway) : Bool → List String →
    Option (Except String Unit) × List BlockCmd
  | _, [] => (some (.ok ()), [])
  | hasRange, cidr :: rest =>
    let perAddr : Option (Except String Unit) × List BlockCmd :=
      match getIPRange cidr with
      | .error emsg =>
        (some (.error ("failed to convert CIDR block " ++ cidr ++
          " to corresponding IP range: " ++ emsg)), [])
      | .ok none => (none, [])
      | .ok (some hosts) =>
        match blockHosts gw hosts with
        | (.ok _, tr) =>
          let r := addFenceLoop gw false rest
          (r.1, tr ++ r.2)
        | (.error e, tr) => (some (.error e), tr)
    if hasRange then
      match addCephBlocklist gw cidr true with
      | .ok _ =>
        let r := addFenceLoop gw true rest
        (r.1, .rangeAdd cidr :: r.2)
      | .error e =>
        if containsStr e invalidCommandStr then
          (perAddr.1, .rangeAdd cidr :: perAddr.2)
        else
          (some (.error ("failed to add blocklist range " ++ goQuote cidr ++
            ": " ++ e)), [.rangeAdd cidr])
    else perAddr

/-- `AddNetworkFence` starts with range support assumed. -/
def AddNetworkFence (gw : Gateway) (cidrs : List String) :
    Option (Except String Unit) × List BlockCmd :=
  addFenceLoop gw true cidrs

/-- A gateway on which every command succeeds. -/
def gwAllOk : Gateway := fun _ => none

/-- A gateway without range support: every range command fails with an
"invalid command" error, address commands succeed. -/
def gwRangeUnsupported : Gateway := fun cmd =>
  match cmd with
  | .rangeAdd _ => some ("exit status 22: invalid command", "")
  | .addrAdd _ => none

/-- A gateway whose range commands fail with an unrelated fatal error. -/
def gwRangeFatal : Gateway := fun cmd =>
  match cmd with
  | .rangeAdd _ => some ("permission denied", "")
  | .addrAdd _ => none

/-! ## `ParseClientIP` from fencing.go

The source matches the regular expression
`(?:v[0-9]+:)?([0-9a-fA-F]{1,4}(:[0-9a-fA-F]{1,4}){7}|(?:\d+\.){3}\d+)`
with `FindStringSubmatch` (leftmost-first / Perl-style semantics) and then
runs `net.ParseIP` on capture group 1.  For this pattern a counted or `+`
quantifier never benefits from backtracking: taking fewer characters leaves
a hex digit (resp. decimal digit) at a position where `:` (resp. `.`) is
required, so the deterministic greedy matcher below computes exactly the
leftmost-first match of the source pattern. -/

/-- `[0-9a-fA-F]`. -/
def isHexDigitGo (c : Char) : Bool :=
  c.isDigit || ('a' ≤ c && c ≤ 'f') || ('A' ≤ c && c ≤ 'F')

/-- Greedy `[0-9a-fA-F]{1,budget}`: the consumed digits and the rest. -/
def takeHex : Nat → List Char → List Char × List Char
  | 0, l => ([], l)
  | _, [] => ([], [])
  | budget + 1, c :: t =>
    if isHexDigitGo c then
      let r := takeHex budget t
      (c :: r.1, r.2)
    else ([], c :: t)

/-- `(:[0-9a-fA-F]{1,4}){k}`: the consumed characters and the rest. -/
def matchColonHex : Nat → List Char → Option (List Char × List Char)
  | 0, l => some ([], l)
  | _ + 1, [] => none
  | k + 1, c :: t =>
    if c = ':' then
      match takeHex 4 t with
      | ([], _) => none
      | (h, r) =>
        match matchColonHex k r with
        | some (c2, r2) => some (':' :: (h ++ c2), r2)
        | none => none
    else none

/-- The IPv6 alternative `[0-9a-fA-F]{1,4}(:[0-9a-fA-F]{1,4}){7}` of the
regex — a full, uncompressed 8-group IPv6 literal. -/
def matchIPv6At (l : List Char) : Option (List Char) :=
  match takeHex 4 l with
  | ([], _) => none
  | (h, r) =>
    match matchColonHex 7 r with
    | some (c2, _) => some (h ++ c2)
    | none => none

/-- Greedy `\d+` (regexp) — longest digit run and the rest. -/
def takeDigits (l : List Char) : List Char × List Char :=
  (l.takeWhile Char.isDigit, l.dropWhile Char.isDigit)

/-- The IPv4 alternative `(?:\d+\.){3}\d+` of the regex. -/
def matchIPv4At (l : List Char) : Option (List Char) :=
  match takeDigits l with
  | ([], _) => none
  | (d1, r1) =>
    match r1 with
    | [] => none
    | c1 :: r1' =>
      if c1 = '.' then
        match takeDigits r1' with
        | ([], _) => none
        | (d2, r2) =>
          match r2 with
          | [] => none
          | c2 :: r2' =>
            if c2 = '.' then
              match takeDigits r2' with
              | ([], _) => none
              | (d3, r3) =>
                match r3 with
                | [] => none
                | c3 :: r3' =>
                  if c3 = '.' then
                    match takeDigits r3' with
                    | ([], _) => none
                    | (d4, _) =>
                      some (d1 ++ '.' :: (d2 ++ '.' :: (d3 ++ '.' :: d4)))
                  else none
            else none
      else none

/-- Capture group 1 at a fixed position: the IPv6 alternative is tried
before the IPv4 alternative, as in the source pattern. -/
def matchGroupAt (l : List Char) : Option (List Char) :=
  match matchIPv6At l with
  | some cap => some cap
  | none => matchIPv4At l

/-- The whole pattern at a fixed position: the optional greedy `v[0-9]+:`
transport prefix is tried first; if the group fails after it, the empty
prefix is tried at the same position. -/
def matchPatternAt (l : List Char) : Option (List Char) :=
  match l with
  | [] => none
  | c :: t =>
    if c = 'v' then
      match takeDigits t with
      | (_ :: _, ':' :: r2) =>
        (match matchGroupAt r2 with
         | some cap => some cap
         | none => matchGroupAt (c :: t))
      | _ => matchGroupAt (c :: t)
    else matchGroupAt (c :: t)

/-- `FindStringSubmatch`: the match at the leftmost matching position. -/
def reFindIP : List Char → Option (List Char)
  | [] => none
  | c :: t =>
    match matchPatternAt (c :: t) with
    | some cap => some cap
    | none => reFindIP t

/-! ### `net.ParseIP` (dotted-quad IPv4 and hex-group IPv6) and
`IP.String()`, as used on the captured group. -/

/-- A Go `net.IP` as produced by `net.ParseIP`: 4 data bytes for an IPv4
literal is stored v4-in-v6, but `String()` only depends on the 4/16 byte
distinction made through `To4`, so the two forms are kept apart here. -/
inductive GoIP
  | v4 (bytes : List Nat)
  | v6 (bytes : List Nat)
deriving DecidableEq

/-- Hex digit value. -/
def hexDigitVal (c : Char) : Nat :=
  if c.isDigit then c.toNat - '0'.toNat
  else if 'a' ≤ c && c ≤ 'f' then c.toNat - 'a'.toNat + 10
  else c.toNat - 'A'.toNat + 10

/-- Value of a hex-digit list. -/
def hexVal (l : List Char) : Nat :=
  l.foldl (fun a c => a * 16 + hexDigitVal c) 0

/-- 16-bit groups to bytes. -/
def groupsToBytes : List Nat → List Nat
  | [] => []
  | g :: t => g / 256 :: g % 256 :: groupsToBytes t

/-- Close an IPv6 parse: `acc` are the groups seen, `ell` the group index
of a `::` if one occurred; the `::` must expand to at least one zero group
(Go `netip` rule). -/
def finishV6 (acc : List Nat) (ell : Option Nat) : Option (List Nat) :=
  match ell with
  | none => if acc.length = 8 then some (groupsToBytes acc) else none
  | some i =>
    if acc.length < 8 then
      some (groupsToBytes (acc.take i ++
        List.replicate (8 - acc.length) 0 ++ acc.drop i))
    else none

/-- The group loop of Go `netip.parseIPv6` (no zones and no embedded
dotted-quad tail — the strings reaching it here contain no `%` or `.`).
`count` bounds the number of groups still allowed. -/
def parseV6Aux : Nat → List Char → List Nat → Option Nat → Option (List Nat)
  | 0, _, _, _ => none
  | count + 1, l, acc, ell =>
    match takeHex 4 l with
    | ([], _) => none
    | (h, r) =>
      let acc' := acc ++ [hexVal h]
      if acc'.length > 8 then none
      else
        match r with
        | [] => finishV6 acc' ell
        | ':' :: ':' :: r2 =>
          if ell.isSome then none
          else if r2.isEmpty then finishV6 acc' (some acc'.length)
          else parseV6Aux count r2 acc' (some acc'.length)
        | ':' :: r2 => parseV6Aux count r2 acc' ell
        | _ => none

/-- Go `netip.parseIPv6` for the forms relevant here: leading `::`,
interior `::` and the plain 8-group form. -/
def parseIPv6Chars (l : List Char) : Option (List Nat) :=
  match l with
  | ':' :: ':' :: rest =>
    if rest.isEmpty then finishV6 [] (some 0)
    else parseV6Aux 8 rest [] (some 0)
  | _ => parseV6Aux 8 l [] none

/-- Go `net.ParseIP` / `netip.ParseAddr`: the first `.` or `:` decides
between the IPv4 and IPv6 parser. -/
def parseIPGo : List Char → Option GoIP :=
  fun l =>
    match findDotColon l with
    | some true => (parseIPv4Chars l).map .v4
    | some false => (parseIPv6Chars l).map .v6
    | none => none
where
  findDotColon : List Char → Option Bool
    | [] => none
    | c :: t =>
      if c = '.' then some true
      else if c = ':' then some false
      else findDotColon t

/-- Lowercase hex of a 16-bit group, no leading zeros (Go `appendHex`). -/
def hexStr (g : Nat) : String := String.mk (Nat.toDigits 16 g)

/-- Length of the zero-group run starting at index `i`. -/
def zeroRunLen (gs : List Nat) (i : Nat) : Nat :=
  ((gs.drop i).takeWhile (fun g => g == 0)).length

/-- Go `IP.String()` zero-compression: the leftmost longest run of at least
two zero groups (strictly longer runs win, so ties go to the leftmost). -/
def bestZeroRun (gs : List Nat) : Option (Nat × Nat) :=
  let best := (List.range gs.length).foldl
    (fun best i =>
      let r := zeroRunLen gs i
      if r > best.2 then (i, r) else best) (0, 0)
  if best.2 ≥ 2 then some best else none

/-- Go `IP.String()` for a 16-byte address given as 8 groups. -/
def ipv6String (gs : List Nat) : String :=
  match bestZeroRun gs with
  | none => String.intercalate ":" (gs.map hexStr)
  | some (e0, len) =>
    String.intercalate ":" ((gs.take e0).map hexStr) ++ "::" ++
      String.intercalate ":" ((gs.drop (e0 + len)).map hexStr)

/-- Bytes to 16-bit groups. -/
def bytesToGroups : List Nat → List Nat
  | a :: b :: t => (a * 256 + b) :: bytesToGroups t
  | _ => []

/-- Go `IP.String()`: dotted quad for IPv4 (and v4-mapped IPv6), hex groups
with zero compression otherwise. -/
def GoIP.toStringGo : GoIP → String
  | .v4 bs => ipString bs
  | .v6 bs =>
    if bs.take 10 = List.replicate 10 0 ∧ (bs.drop 10).take 2 = [255, 255] then
      ipString (bs.drop 12)
    else ipv6String (bytesToGroups bs)

/-- `ParseClientIP` from fencing.go. -/
def ParseClientIP (addr : String) : Except String String :=
  match reFindIP addr.data with
  | some cap =>
    match parseIPGo cap with
    | some ip => .ok ip.toStringGo
    | none => .error ("failed to extract IP address, incorrect format: " ++ addr)
  | none => .error ("failed to extract IP address, incorrect format: " ++ addr)

/-! ## `fetchID` from fencing.go (session id extraction) -/

/-- Go `unicode.IsSpace` restricted to the Latin-1 range (descriptors are
ASCII): space, TAB, LF, VT, FF, CR, NEL, NBSP. -/
def goIsSpace (c : Char) : Bool :=
  c.toNat = 32 || c.toNat = 9 || c.toNat = 10 || c.toNat = 11 ||
    c.toNat = 12 || c.toNat = 13 || c.toNat = 133 || c.toNat = 160

/-- Go `strings.Fields` with explicit fuel (one unit per consumed
character; `l.length` always suffices). -/
def goFieldsAux : Nat → List Char → List (List Char)
  | 0, _ => []
  | _ + 1, [] => []
  | f + 1, c :: t =>
    if goIsSpace c then goFieldsAux f t
    else (c :: t.takeWhile (fun x => !goIsSpace x)) ::
      goFieldsAux f (t.dropWhile (fun x => !goIsSpace x))

/-- Go `strings.Fields`. -/
def goFields (l : List Char) : List (List Char) := goFieldsAux l.length l

/-- Go `strings.TrimPrefix(s, "client.")`. -/
def trimClientDot (l : List Char) : List Char :=
  if "client.".data.isPrefixOf l then l.drop 7 else l

/-- Go `strconv.Atoi` on a character list: optional sign, decimal digits,
64-bit range check. -/
def goAtoi (l : List Char) : Except String Int :=
  match l with
  | [] => .error "invalid syntax"
  | c :: t =>
    let digits := if c = '-' || c = '+' then t else c :: t
    let neg := c = '-'
    if digits.isEmpty then .error "invalid syntax"
    else if !(digits.all Char.isDigit) then .error "invalid syntax"
    else
      let v := digitsVal digits
      if neg then
        if v > 2 ^ 63 then .error "value out of range" else .ok (-(v : Int))
      else
        if v ≥ 2 ^ 63 then .error "value out of range" else .ok (v : Int)

/-- `fetchID` from fencing.go: first whitespace-separated token, the
literal prefix "client." stripped, parsed with `Atoi`. -/
def fetchID (inst : String) : Except String Int :=
  match goFields inst.data with
  | [] => .error ("failed to extract client ID, incorrect format: " ++ inst)
  | tok :: _ =>
    match goAtoi (trimClientDot tok) with
    | .ok n => .ok n
    | .error e => .error ("failed to convert client ID to int: " ++ e)

/-! ## `isIPInCIDR`, blocklist parsing and `AddClientEviction` -/

/-- Go `IP.To4`: the 4 data bytes of an IPv4 or v4-mapped address. -/
def GoIP.to4 : GoIP → Option (List Nat)
  | .v4 bs => some bs
  | .v6 bs =>
    if bs.take 10 = List.replicate 10 0 ∧ (bs.drop 10).take 2 = [255, 255] then
      some (bs.drop 12)
    else none

/-- Go `IPNet.Contains` on a parsed address: normalize through `To4`, then
compare masked bytes (length mismatch is `false`). -/
def ipnetContains (network m : List Nat) (ip : GoIP) : Bool :=
  let ipb := match ip.to4 with
    | some b => b
    | none => match ip with
      | .v4 b => b
      | .v6 b => b
  containsIP network m ipb

/-- `isIPInCIDR` from fencing.go: any parse failure logs and returns
`false`. -/
def isIPInCIDR (ip cidr : String) : Bool :=
  match parseCIDR cidr with
  | none => false
  | some (bytes, n) =>
    match parseIPGo ip.data with
    | none => false
    | some gip => ipnetContains (maskIP bytes (cidrMask n)) (cidrMask n) gip

/-- `IPWithNonce` from fencing.go. -/
structure IPWithNonce where
  IP : String
  Nonce : String
deriving DecidableEq

/-- Go `strings.LastIndex(s, ":")` on a character list. -/
def lastColonIdx (l : List Char) : Option Nat :=
  match l.reverse.findIdx? (fun c => c = ':') with
  | some j => some (l.length - 1 - j)
  | none => none

/-- `parseBlocklistEntry` from fencing.go: first field, split at the first
`/` into ip:port and nonce, the ip is everything before the last `:`. -/
def parseBlocklistEntry (entry : String) : IPWithNonce :=
  match goFields entry.data with
  | [] => ⟨"", ""⟩
  | p0 :: _ =>
    match splitFirst '/' p0 with
    | none => ⟨"", ""⟩
    | some (ipPort, nonce) =>
      match lastColonIdx ipPort with
      | none => ⟨"", ""⟩
      | some i =>
        if ipPort.length ≤ i then ⟨"", ""⟩
        else ⟨String.mk (ipPort.take i), String.mk nonce⟩

/-- Go `strings.TrimSpace`. -/
def goTrimSpaceChars (l : List Char) : List Char :=
  ((l.dropWhile goIsSpace).reverse.dropWhile goIsSpace).reverse

/-- The entry loop of `parseBlocklistForCIDR` from fencing.go. -/
def parseBlocklistLoop (cidr : String) : List (List Char) → List IPWithNonce
  | [] => []
  | e :: rest =>
    let entry := goTrimSpaceChars e
    if containsSub entry "cidr".data || !(containsSub entry "/".data) then
      parseBlocklistLoop cidr rest
    else
      let blockedHost := parseBlocklistEntry (String.mk entry)
      if isIPInCIDR blockedHost.IP cidr then
        blockedHost :: parseBlocklistLoop cidr rest
      else parseBlocklistLoop cidr rest

/-- `parseBlocklistForCIDR` from fencing.go. -/
def parseBlocklistForCIDR (blocklist cidr : String) : List IPWithNonce :=
  parseBlocklistLoop cidr (splitOnChar '\n' blocklist.data)

/-- The inner client loop of `AddClientEviction`: for one CIDR, evict every
listed client whose extracted address lies in it; any extraction or
eviction error aborts.  The second component records the ids for which an
evict command was issued. -/
def evictLoopClients (evictErr : Int → Option String) (cidr : String) :
    List String → Except String Unit × List Int
  | [] => (.ok (), [])
  | inst :: rest =>
    match ParseClientIP inst with
    | .error e => (.error ("error fetching client IP: " ++ e), [])
    | .ok clientIP =>
      if isIPInCIDR clientIP cidr then
        match fetchID inst with
        | .error e => (.error ("error fetching client ID: " ++ e), [])
        | .ok clientID =>
          match evictErr clientID with
          | some e =>
            (.error ("error evicting client " ++ toString clientID ++ ": " ++ e), [])
          | none =>
            let r := evictLoopClients evictErr cidr rest
            (r.1, clientID :: r.2)
      else evictLoopClients evictErr cidr rest

/-- The outer CIDR loop of `AddClientEviction`. -/
def evictLoopCidrs (evictErr : Int → Option String) (clients : List String) :
    List String → Except String Unit × List Int
  | [] => (.ok (), [])
  | cidr :: rest =>
    match evictLoopClients evictErr cidr clients with
    | (.ok _, tr) =>
      let r := evictLoopCidrs evictErr clients rest
      (r.1, tr ++ r.2)
    | (.error e, tr) => (.error e, tr)

/-- `AddClientEviction` from fencing.go: list clients (an external call,
modelled as an `Except` input), run the eviction loops, then add the
range-based blocklist via `AddNetworkFence`.  Components: overall result
(`none` marks the non-terminating fence expansion), evicted ids, blocklist
commands. -/
def AddClientEviction (gw : Gateway) (evictErr : Int → Option String)
    (clientsRes : Except String (List String)) (cidrs : List String) :
    Option (Except String Unit) × List Int × List BlockCmd :=
  match clientsRes with
  | .error e => (some (.error e), [], [])
  | .ok clients =>
    match evictLoopCidrs evictErr clients cidrs with
    | (.ok _, tr) =>
      let r := AddNetworkFence gw cidrs
      (r.1, tr, r.2)
    | (.error e, tr) => (some (.error e), tr, [])

/-! ## Encryption state metadata (rbd encryption file)

The rbd image metadata store is modelled as an association list (first
binding wins); librbd errors are `RbdErr`.  Metadata reads and writes are
recorded as `MetaOp`s so that "no metadata access" is a provable fact. -/

/-- `rbdEncryptionState` is a bare string type in the source; the three
named values. -/
def rbdImageEncryptionUnknown : String := ""

def rbdImageEncrypted : String := "encrypted"

def rbdImageEncryptionPrepared : String := "encryptionPrepared"

def encryptionMetaKey : String := "rbd.csi.ceph.com/encrypted"

def oldEncryptionMetaKey : String := ".rbd.csi.ceph.com/encrypted"

def metadataDEK : String := "rbd.csi.ceph.com/dek"

def oldMetadataDEK : String := ".rbd.csi.ceph.com/dek"

def encryptionPassphraseSize : Nat := 20

def luksSlot0 : String := "0"

def luksSlot1 : String := "1"

/-- librbd error surface used by the metadata helpers. -/
inductive RbdErr
  | notFound
  | other (msg : String)
deriving DecidableEq

/-- The image metadata key-value store. -/
def ImgMeta := List (String × String)

/-- A recorded metadata access. -/
inductive MetaOp
  | get (k : String)
  | set (k v : String)
deriving DecidableEq

def getMeta (m : ImgMeta) (k : String) : Option String :=
  (m.find? (fun p => p.1 == k)).map (·.2)

def setMeta (m : ImgMeta) (k v : String) : ImgMeta := (k, v) :: m

/-- Modelled from the spec: `MigrateMetadata` is called by
`checkRbdImageEncrypted` and `FetchDEK` but its definition is not among the
provided source files.  Per the spec it reads the canonical key, falls back
to the legacy key, copies a legacy value to the canonical key in the same
call, and reports absence (the not-found report is what lets `CheckState`
return Unknown; a variant returning the default value on absence gives the
same `CheckState` result). -/
def MigrateMetadata (m : ImgMeta) (oldKey newKey defaultValue : String) :
    Except RbdErr String × ImgMeta × List MetaOp :=
  match getMeta m newKey with
  | some v => (.ok v, m, [.get newKey])
  | none =>
    match getMeta m oldKey with
    | some v => (.ok v, setMeta m newKey v, [.get newKey, .get oldKey, .set newKey v])
    | none => (.error .notFound, m, [.get newKey, .get oldKey])

/-- `checkRbdImageEncrypted` from the rbd encryption file: `ErrNotFound`
maps to Unknown without error, any other error is reported alongside
Unknown, and a present value is trimmed and cast to the state type —
an unrecognized string is returned as itself, not replaced by Unknown. -/
def checkRbdImageEncrypted (m : ImgMeta) : (String × Option RbdErr) × ImgMeta :=
  match MigrateMetadata m oldEncryptionMetaKey encryptionMetaKey
      rbdImageEncryptionUnknown with
  | (.error .notFound, m', _) => ((rbdImageEncryptionUnknown, none), m')
  | (.error e, m', _) => ((rbdImageEncryptionUnknown, some e), m')
  | (.ok v, m', _) => ((String.mk (goTrimSpaceChars v.data), none), m')

/-- The rbd image as the DEK-store interface sees it. -/
structure rbdImage where
  VolID : String
  meta : ImgMeta

/-- `StoreDEK` from the rbd encryption file. -/
def StoreDEK (ri : rbdImage) (volumeID dek : String) :
    Except String Unit × rbdImage × List MetaOp :=
  if ri.VolID = "" then
    (.error "BUG: image does not have VolID set", ri, [])
  else if ri.VolID ≠ volumeID then
    (.error ("volume " ++ ri.VolID ++ " can not store DEK for " ++ volumeID), ri, [])
  else
    (.ok (), { ri with meta := setMeta ri.meta metadataDEK dek },
      [.set metadataDEK dek])

/-- `FetchDEK` from the rbd encryption file. -/
def FetchDEK (ri : rbdImage) (volumeID : String) :
    Except RbdErr String × rbdImage × List MetaOp :=
  if ri.VolID = "" then
    (.error (.other "BUG: image does not have VolID set"), ri, [])
  else if ri.VolID ≠ volumeID then
    (.error (.other ("volume " ++ ri.VolID ++ " can not fetch DEK for " ++ volumeID)),
      ri, [])
  else
    match MigrateMetadata ri.meta oldMetadataDEK metadataDEK "" with
    | (r, m', ops) => (r, { ri with meta := m' }, ops)

/-- `RemoveDEK` from the rbd encryption file: after the VolID checks it
does nothing (the image is being removed anyway). -/
def RemoveDEK (ri : rbdImage) (volumeID : String) :
    Except String Unit × rbdImage × List MetaOp :=
  if ri.VolID = "" then
    (.error "BUG: image does not have VolID set", ri, [])
  else if ri.VolID ≠ volumeID then
    (.error ("volume " ++ ri.VolID ++ " can not remove DEK for " ++ volumeID), ri, [])
  else (.ok (), ri, [])

/-! ## `RotateEncryptionKey` from the rbd encryption file

External collaborators are modelled explicitly: the LUKS header as two key
slots, the KMS as the stored passphrase, the distributed lock as a held
flag; a `RotPlan` is the oracle saying which external call succeeds.  A
LUKS AddKey/RemoveKey succeeds only when its plan bit is set and the
authenticating passphrase opens the device. -/

/-- Which external calls of one rotation attempt succeed. -/
structure RotPlan where
  openIoctxOk : Bool
  lockOk : Bool
  pathFound : Bool
  fetchOk : Bool
  addBackupOk : Bool
  genOk : Bool
  installOk : Bool
  kmsStoreOk : Bool
  removeBackupOk : Bool
deriving DecidableEq

/-- The all-successful plan. -/
def RotPlan.allOk : RotPlan := ⟨true, true, true, true, true, true, true, true, true⟩

/-- The LUKS header: slot 0 (current) and slot 1 (rotation backup). -/
structure LuksState where
  slot0 : Option String
  slot1 : Option String
deriving DecidableEq

/-- The device opens under a passphrase present in either slot. -/
def canOpen (d : LuksState) (p : String) : Bool :=
  decide (d.slot0 = some p) || decide (d.slot1 = some p)

/-- The external state a rotation attempt drives. -/
structure RotEnv where
  luks : LuksState
  kms : String
  lockHeld : Bool
deriving DecidableEq

/-- `luks.AddKey(device, auth, key, slot)`: requires the plan bit and a
valid authenticating passphrase; writes `key` into `slot`. -/
def luksAddKey (ok : Bool) (d : LuksState) (auth key slot : String) :
    Option LuksState :=
  if ok && canOpen d auth then
    some (if slot = luksSlot0 then { d with slot0 := some key }
          else { d with slot1 := some key })
  else none

/-- `luks.RemoveKey(device, auth, slot)`. -/
def luksRemoveKey (ok : Bool) (d : LuksState) (auth slot : String) :
    Option LuksState :=
  if ok && canOpen d auth then
    some (if slot = luksSlot0 then { d with slot0 := none }
          else { d with slot1 := none })
  else none

/-- The body of `RotateEncryptionKey` under the held lock: locate device,
fetch current passphrase, back it up to slot 1, generate a new passphrase,
install it in slot 0 authenticated with the old one, store it in the KMS,
then remove the backup authenticated with the new one. -/
def rotateLocked (plan : RotPlan) (newPass : String) (env : RotEnv) :
    Except String Unit × RotEnv :=
  if !plan.pathFound then (.error "failed to get the device path", env)
  else if !plan.fetchOk then
    (.error "failed to fetch the current passphrase", env)
  else
    let oldPassphrase := env.kms
    match luksAddKey plan.addBackupOk env.luks oldPassphrase oldPassphrase
        luksSlot1 with
    | none => (.error "failed to add curr key to luksSlot1", env)
    | some d1 =>
      let env1 := { env with luks := d1 }
      if !plan.genOk then (.error "failed to generate a new passphrase", env1)
      else
        match luksAddKey plan.installOk env1.luks oldPassphrase newPass
            luksSlot0 with
        | none => (.error "failed to add the new key to luksSlot0", env1)
        | some d2 =>
          let env2 := { env1 with luks := d2 }
          if !plan.kmsStoreOk then
            (.error "failed to update the new key into the KMS", env2)
          else
            let env3 := { env2 with kms := newPass }
            match luksRemoveKey plan.removeBackupOk env3.luks newPass
                luksSlot1 with
            | none => (.error "failed to remove the backup key from luksSlot1", env3)
            | some d3 => (.ok (), { env3 with luks := d3 })

/-- `RotateEncryptionKey` from the rbd encryption file: precondition
checks (block-mode binding, metadata state Encrypted), ioctx, lock
acquisition, then the locked body; the deferred unlock releases the lock
on every path after acquisition. -/
def RotateEncryptionKey (blockEncrypted : Bool) (m : ImgMeta) (plan : RotPlan)
    (newPass : String) (env : RotEnv) : Except String Unit × RotEnv :=
  if !blockEncrypted then
    (.error "key rotation unsupported for non block encrypted device", env)
  else
    match (checkRbdImageEncrypted m).1 with
    | (_, some _) => (.error "failed to check encryption state", env)
    | (currState, none) =>
      if currState ≠ rbdImageEncrypted then
        (.error "key rotation not supported for unencrypted device", env)
      else if !plan.openIoctxOk then (.error "failed to open ioctx", env)
      else if !plan.lockOk then (.error "failed to acquire lock", env)
      else
        let r := rotateLocked plan newPass { env with lockHeld := true }
        (r.1, { r.2 with lockHeld := false })

theorem bytes4_inj {v w : Nat} (hv : v < 2 ^ 32) (hw : w < 2 ^ 32)
    (h : bytes4 v = bytes4 w) : v = w := by
  simp only [bytes4, List.cons.injEq, and_true] at h
  omega

set_option maxHeartbeats 1000000 in
theorem incIP_bytes4 {v : Nat} (hv : v < 2 ^ 32) :
    incIP (bytes4 v) = bytes4 ((v + 1) % 2 ^ 32) := by
  simp only [incIP, bytes4, List.reverse_cons, List.reverse_nil, List.nil_append,
    List.cons_append, incBytesRev]
  split_ifs <;>
    simp only [List.reverse_cons, List.reverse_nil, List.nil_append, List.cons_append,
      List.cons.injEq, and_true] <;> omega

/-- Byte-level fact: AND-ing a byte with a `k`-ones mask byte keeps the top
`k` bits, i.e. rounds down to a multiple of `2^(8-k)`. -/
theorem land_maskByte : ∀ k < 9, ∀ b < 256,
    b &&& maskByte k = b / 2 ^ (8 - k) * 2 ^ (8 - k) := by decide

set_option maxHeartbeats 1000000 in
theorem maskIP_bytes4 {n v : Nat} (hn : n ≤ 32) (hv : v < 2 ^ 32) :
    maskIP (bytes4 v) (cidrMask n) = bytes4 (maskNat n v) := by
  have h0 := land_maskByte (min n 8) (by omega) (v / 2 ^ 24 % 256) (by omega)
  have h1 := land_maskByte (min (n - 8) 8) (by omega) (v / 2 ^ 16 % 256) (by omega)
  have h2 := land_maskByte (min (n - 16) 8) (by omega) (v / 2 ^ 8 % 256) (by omega)
  have h3 := land_maskByte (min (n - 24) 8) (by omega) (v % 256) (by omega)
  simp only [maskIP, bytes4, cidrMask, List.zipWith, maskNat]
  rw [h0, h1, h2, h3]
  simp only [List.cons.injEq, and_true]
  interval_cases n <;> norm_num <;> omega

theorem maskNat_lt {n v : Nat} (hv : v < 2 ^ 32) : maskNat n v < 2 ^ 32 :=
  Nat.lt_of_le_of_lt (Nat.div_mul_le_self v _) hv

/-- Aligned base plus an in-block offset stays in the block. -/
theorem maskNat_add_eq {n w i : Nat} (hw : maskNat n w = w)
    (hi : i < 2 ^ (32 - n)) : maskNat n (w + i) = w := by
  set s := 2 ^ (32 - n) with hs
  have hspos : 0 < s := Nat.pos_pow_of_pos _ (by norm_num)
  have hq : w / s * s = w := hw
  have hw' : s * (w / s) = w := by rw [Nat.mul_comm]; exact hq
  have key : (w + i) / s = w / s := by
    conv_lhs => rw [← hw']
    rw [Nat.mul_add_div hspos, Nat.div_eq_of_lt hi, Nat.add_zero]
  have h2 : maskNat n (w + i) = (w + i) / s * s := by rw [maskNat, hs]
  rw [h2, key, hq]

/-- An aligned block base plus the block size does not overflow `2^32`. -/
theorem aligned_add_size_le {n w : Nat} (hn : n ≤ 32) (hw : maskNat n w = w)
    (hlt : w < 2 ^ 32) : w + 2 ^ (32 - n) ≤ 2 ^ 32 := by
  set s := 2 ^ (32 - n) with hs
  have hspos : 0 < s := Nat.pos_pow_of_pos _ (by norm_num)
  have hq : w / s * s = w := hw
  have hsdvd : s ∣ 2 ^ 32 := pow_dvd_pow 2 (by omega)
  obtain ⟨p, hp⟩ := hsdvd
  have hqp : w / s < p := by
    have hlt' : s * (w / s) < s * p := by
      rw [Nat.mul_comm s (w / s), hq, ← hp]
      exact hlt
    exact Nat.lt_of_mul_lt_mul_left hlt'
  have h2 : (w / s + 1) * s ≤ p * s := Nat.mul_le_mul_right s hqp
  have h3 : (w / s + 1) * s = w + s := by rw [Nat.add_mul, Nat.one_mul, hq]
  calc w + s = (w / s + 1) * s := h3.symm
    _ ≤ p * s := h2
    _ = 2 ^ 32 := by rw [Nat.mul_comm, ← hp]

theorem containsIP_bytes4 {n w v : Nat} (hn : n ≤ 32) (hw : w < 2 ^ 32)
    (hv : v < 2 ^ 32) (hwm : maskNat n w = w) :
    containsIP (bytes4 w) (cidrMask n) (bytes4 v) = true ↔ maskNat n v = w := by
  have hlen : (bytes4 w).length = (bytes4 v).length := by simp [bytes4]
  simp only [containsIP, maskIP_bytes4 hn hw, maskIP_bytes4 hn hv, hwm, hlen,
    Bool.and_eq_true, decide_eq_true_eq, and_true]
  constructor
  · intro h
    exact (bytes4_inj hw (maskNat_lt hv) h).symm
  · intro h
    rw [h]

theorem parseV4Field_le {l : List Char} {x : Nat} (h : parseV4Field l = some x) :
    x ≤ 255 := by
  unfold parseV4Field at h
  split_ifs at h with h1 h2 h3 h4 h5 <;> simp_all

theorem parseCIDR_shape {s : String} {bytes : List Nat} {n : Nat}
    (h : parseCIDR s = some (bytes, n)) :
    n ≤ 32 ∧ ∃ v, v < 2 ^ 32 ∧ bytes = bytes4 v := by
  unfold parseCIDR at h
  rcases hsp : splitFirst '/' s.data with _ | ⟨addr, mask⟩ <;> rw [hsp] at h
  · exact absurd h (by simp)
  try dsimp only at h
  rcases hip : parseIPv4Chars addr with _ | bs <;> rw [hip] at h
  · exact absurd h (by simp)
  try dsimp only at h
  rcases hm : parseMaskLen mask with _ | k <;> rw [hm] at h
  · exact absurd h (by simp)
  try dsimp only at h
  simp only [Option.some.injEq, Prod.mk.injEq] at h
  obtain ⟨hb, hn⟩ := h
  constructor
  · unfold parseMaskLen at hm
    split_ifs at hm <;> simp_all
  · unfold parseIPv4Chars at hip
    rcases hflds : splitOnChar '.' addr with _ | ⟨f1, fs⟩ <;> rw [hflds] at hip
    · exact absurd hip (by simp)
    rcases fs with _ | ⟨f2, fs⟩
    · exact absurd hip (by simp)
    rcases fs with _ | ⟨f3, fs⟩
    · exact absurd hip (by simp)
    rcases fs with _ | ⟨f4, fs⟩
    · exact absurd hip (by simp)
    rcases fs with _ | ⟨f5, fs⟩
    swap
    · exact absurd hip (by simp)
    try dsimp only at hip
    rcases ha : parseV4Field f1 with _ | a <;> rw [ha] at hip
    · exact absurd hip (by simp)
    rcases hb2 : parseV4Field f2 with _ | b <;> rw [hb2] at hip
    · exact absurd hip (by simp)
    rcases hc : parseV4Field f3 with _ | c <;> rw [hc] at hip
    · exact absurd hip (by simp)
    rcases hd : parseV4Field f4 with _ | d <;> rw [hd] at hip
    · exact absurd hip (by simp)
    simp only [Option.some.injEq] at hip
    have la := parseV4Field_le ha
    have lb := parseV4Field_le hb2
    have lc := parseV4Field_le hc
    have ld := parseV4Field_le hd
    refine ⟨a * 2 ^ 24 + b * 2 ^ 16 + c * 2 ^ 8 + d, by omega, ?_⟩
    rw [← hb, ← hip]
    simp only [bytes4, List.cons.injEq, and_true]
    refine ⟨by omega, by omega, by omega, by omega⟩

/-! ### `ipString` is injective on 4-byte addresses. -/

theorem ipString_eq_append (a b c d : Nat) :
    ipString [a, b, c, d] =
      toString a ++ "." ++ toString b ++ "." ++ toString c ++ "." ++ toString d := by
  simp [ipString, String.intercalate, String.intercalate.go]

/-- Digit strings of byte values evaluate back to the byte. -/
theorem digitsVal_toString_byte : ∀ b < 256, digitsVal (toString b).data = b := by decide

theorem toString_byte_no_dot : ∀ b < 256, '.' ∉ (toString b).data := by decide

theorem append_dot_inj {xs us ys vs : List Char}
    (hx : '.' ∉ xs) (hu : '.' ∉ us)
    (h : xs ++ '.' :: ys = us ++ '.' :: vs) : xs = us ∧ ys = vs := by
  induction xs generalizing us with
  | nil =>
    cases us with
    | nil => simpa using h
    | cons u us' =>
      simp only [List.nil_append, List.cons_append, List.cons.injEq] at h
      obtain ⟨h1, _⟩ := h
      exact absurd (h1 ▸ List.mem_cons_self u us') hu
  | cons x xs' ih =>
    cases us with
    | nil =>
      simp only [List.cons_append, List.nil_append, List.cons.injEq] at h
      obtain ⟨h1, _⟩ := h
      exact absurd (h1 ▸ List.mem_cons_self x xs') hx
    | cons u us' =>
      simp only [List.cons_append, List.cons.injEq] at h
      obtain ⟨h1, h2⟩ := h
      subst h1
      have hx' : '.' ∉ xs' := fun hm => hx (List.mem_cons_of_mem _ hm)
      have hu' : '.' ∉ us' := fun hm => hu (List.mem_cons_of_mem _ hm)
      obtain ⟨e1, e2⟩ := ih hx' hu' h2
      exact ⟨by rw [e1], e2⟩

theorem ipString_data (a b c d : Nat) :
    (ipString [a, b, c, d]).data =
      (toString a).data ++ '.' :: ((toString b).data ++ '.' ::
        ((toString c).data ++ '.' :: (toString d).data)) := by
  rw [ipString_eq_append]
  simp [String.data_append]

theorem toString_byte_inj {a b : Nat} (ha : a < 256) (hb : b < 256)
    (h : (toString a).data = (toString b).data) : a = b := by
  have h1 := digitsVal_toString_byte a ha
  have h2 := digitsVal_toString_byte b hb
  rw [h] at h1
  omega

theorem ipString_bytes4_inj {x y : Nat} (hx : x < 2 ^ 32) (hy : y < 2 ^ 32)
    (h : ipString (bytes4 x) = ipString (bytes4 y)) : x = y := by
  have hdata := congrArg String.data h
  simp only [bytes4, ipString_data] at hdata
  have d1 : '.' ∉ (toString (x / 2 ^ 24 % 256)).data :=
    toString_byte_no_dot _ (by omega)
  have d2 : '.' ∉ (toString (x / 2 ^ 16 % 256)).data :=
    toString_byte_no_dot _ (by omega)
  have d3 : '.' ∉ (toString (x / 2 ^ 8 % 256)).data :=
    toString_byte_no_dot _ (by omega)
  have e1 : '.' ∉ (toString (y / 2 ^ 24 % 256)).data :=
    toString_byte_no_dot _ (by omega)
  have e2 : '.' ∉ (toString (y / 2 ^ 16 % 256)).data :=
    toString_byte_no_dot _ (by omega)
  have e3 : '.' ∉ (toString (y / 2 ^ 8 % 256)).data :=
    toString_byte_no_dot _ (by omega)
  obtain ⟨q1, hrest1⟩ := append_dot_inj d1 e1 hdata
  obtain ⟨q2, hrest2⟩ := append_dot_inj d2 e2 hrest1
  obtain ⟨q3, q4⟩ := append_dot_inj d3 e3 hrest2
  have b1 := toString_byte_inj (by omega) (by omega) q1
  have b2 := toString_byte_inj (by omega) (by omega) q2
  have b3 := toString_byte_inj (by omega) (by omega) q3
  have b4 := toString_byte_inj (by omega) (by omega) q4
  omega

/-! ### Behaviour of the enumeration loop. -/

theorem incBytesRev_length : ∀ l : List Nat, (incBytesRev l).length = l.length
  | [] => rfl
  | b :: rest => by
    simp only [incBytesRev]
    split_ifs <;> simp [incBytesRev_length rest]

theorem incIP_length (ip : List Nat) : (incIP ip).length = ip.length := by
  simp [incIP, incBytesRev_length]

theorem length4_eq {l : List Nat} (h : l.length = 4) :
    ∃ a b c d, l = [a, b, c, d] := by
  match l, h with
  | [a, b, c, d], _ => exact ⟨a, b, c, d, rfl⟩

/-- Under the all-zero `/0` mask every 4-byte address is contained, so the
loop spends all its fuel and never returns. -/
theorem ipRangeLoop_mask0_none :
    ∀ fuel (ip : List Nat), ip.length = 4 →
      ipRangeLoop (bytes4 0) (cidrMask 0) fuel ip = none := by
  intro fuel
  induction fuel with
  | zero => intro ip _; rfl
  | succ f ih =>
    intro ip hlen
    obtain ⟨a, b, c, d, rfl⟩ := length4_eq hlen
    have hcont : containsIP (bytes4 0) (cidrMask 0) [a, b, c, d] = true := by
      simp [containsIP, maskIP, cidrMask, maskByte, bytes4]
    have hrec := ih (incIP [a, b, c, d]) (by rw [incIP_length]; rfl)
    simp only [ipRangeLoop, hcont, if_true, hrec]

theorem maskNat_self_add {n w : Nat} (hw : maskNat n w = w) :
    maskNat n (w + 2 ^ (32 - n)) = w + 2 ^ (32 - n) := by
  set s := 2 ^ (32 - n) with hs
  have hspos : 0 < s := Nat.pos_pow_of_pos _ (by norm_num)
  have hq : w / s * s = w := hw
  have hw' : s * (w / s) = w := by rw [Nat.mul_comm]; exact hq
  have key : (w + s) / s = w / s + 1 := by
    conv_lhs => rw [← hw']
    rw [← Nat.mul_succ, Nat.mul_comm, Nat.mul_div_cancel _ hspos]
  have h2 : maskNat n (w + s) = (w + s) / s * s := by rw [maskNat, hs]
  rw [h2, key, Nat.add_mul, Nat.one_mul, hq]

theorem maskNat_zero_val {n : Nat} : maskNat n 0 = 0 := by
  simp [maskNat]

theorem ipRangeLoop_run {n w : Nat} (hn1 : 1 ≤ n) (hn : n ≤ 32)
    (hw : maskNat n w = w) (hwlt : w < 2 ^ 32) :
    ∀ k, k ≤ 2 ^ (32 - n) → ∀ fuel, k + 1 ≤ fuel →
      ipRangeLoop (bytes4 w) (cidrMask n) fuel
          (bytes4 ((w + (2 ^ (32 - n) - k)) % 2 ^ 32)) =
        some ((List.range' (w + (2 ^ (32 - n) - k)) k).map
          (fun x => ipString (bytes4 x))) := by
  have hsle : 2 ^ (32 - n) ≤ 2 ^ 31 :=
    Nat.pow_le_pow_right (by norm_num) (by omega)
  have hle := aligned_add_size_le hn hw hwlt
  intro k
  induction k with
  | zero =>
    intro _ fuel hfuel
    obtain ⟨f, rfl⟩ : ∃ f, fuel = f + 1 := ⟨fuel - 1, by omega⟩
    have hcont : containsIP (bytes4 w) (cidrMask n)
        (bytes4 ((w + (2 ^ (32 - n) - 0)) % 2 ^ 32)) = false := by
      rw [Bool.eq_false_iff]
      intro hc
      rcases Nat.eq_or_lt_of_le hle with heq | hlt2
      · have hz : (w + (2 ^ (32 - n) - 0)) % 2 ^ 32 = 0 := by
          simp only [Nat.sub_zero]
          omega
        rw [hz] at hc
        have := (containsIP_bytes4 hn hwlt (by norm_num) hw).mp hc
        rw [maskNat_zero_val] at this
        omega
      · have hm : (w + (2 ^ (32 - n) - 0)) % 2 ^ 32 = w + 2 ^ (32 - n) := by
          simp only [Nat.sub_zero]
          omega
        rw [hm] at hc
        have := (containsIP_bytes4 hn hwlt (by omega) hw).mp hc
        rw [maskNat_self_add hw] at this
        have hspos : 0 < 2 ^ (32 - n) := Nat.pos_pow_of_pos _ (by norm_num)
        omega
    simp only [ipRangeLoop, hcont, Bool.false_eq_true, if_false,
      List.range', List.map_nil]
  | succ k ih =>
    intro hk fuel hfuel
    obtain ⟨f, rfl⟩ : ∃ f, fuel = f + 1 := ⟨fuel - 1, by omega⟩
    have hvlt : w + (2 ^ (32 - n) - (k + 1)) < 2 ^ 32 := by omega
    have hmod : (w + (2 ^ (32 - n) - (k + 1))) % 2 ^ 32 =
        w + (2 ^ (32 - n) - (k + 1)) := Nat.mod_eq_of_lt hvlt
    have hcont : containsIP (bytes4 w) (cidrMask n)
        (bytes4 ((w + (2 ^ (32 - n) - (k + 1))) % 2 ^ 32)) = true := by
      rw [hmod]
      exact (containsIP_bytes4 hn hwlt (by omega) hw).mpr
        (maskNat_add_eq hw (by omega))
    have hinc2 : incIP (bytes4 (w + (2 ^ (32 - n) - (k + 1)))) =
        bytes4 ((w + (2 ^ (32 - n) - k)) % 2 ^ 32) := by
      rw [incIP_bytes4 hvlt]
      congr 1
      omega
    have hrec := ih (by omega) f (by omega)
    rw [hmod] at hcont ⊢
    simp only [ipRangeLoop, hcont, if_true]
    rw [hinc2, hrec]
    have hstep : w + (2 ^ (32 - n) - (k + 1)) + 1 = w + (2 ^ (32 - n) - k) := by
      omega
    have hrange : List.range' (w + (2 ^ (32 - n) - (k + 1))) (k + 1) =
        (w + (2 ^ (32 - n) - (k + 1))) :: List.range' (w + (2 ^ (32 - n) - k)) k := by
      rw [List.range'_succ, hstep]
    rw [hrange, List.map_cons]

theorem maskNat_idem (n v : Nat) : maskNat n (maskNat n v) = maskNat n v := by
  have hspos : 0 < 2 ^ (32 - n) := Nat.pos_pow_of_pos _ (by norm_num)
  simp only [maskNat]
  rw [Nat.mul_div_cancel _ hspos]

/-- Common core for the C2/C8 terminating runs: a parsed CIDR with nonzero
prefix makes `getIPRange` return exactly the block enumeration. -/
theorem getIPRange_run {s : String} {bytes : List Nat} {n : Nat}
    (hp : parseCIDR s = some (bytes, n)) (hn1 : 1 ≤ n) {v : Nat}
    (hv : v < 2 ^ 32) (hb : bytes = bytes4 v) :
    getIPRange s = .ok (some ((List.range' (maskNat n v) (2 ^ (32 - n))).map
      (fun x => ipString (bytes4 x)))) := by
  obtain ⟨hn, -⟩ := parseCIDR_shape hp
  have hidem : maskNat n (maskNat n v) = maskNat n v := maskNat_idem n v
  have hwlt : maskNat n v < 2 ^ 32 := maskNat_lt hv
  have hfuel : 2 ^ (32 - n) + 1 ≤ 2 ^ 32 + 1 := by
    have := Nat.pow_le_pow_right (show 1 ≤ 2 by norm_num) (show 32 - n ≤ 32 by omega)
    omega
  have key := ipRangeLoop_run hn1 hn hidem hwlt (2 ^ (32 - n)) le_rfl
    (2 ^ 32 + 1) hfuel
  simp only [Nat.sub_self, Nat.add_zero, Nat.mod_eq_of_lt hwlt] at key
  unfold getIPRange
  rw [hp]
  dsimp only
  rw [hb, maskIP_bytes4 hn hv, key]

theorem getIPRange_nodup {n v : Nat} (hn : n ≤ 32) (hn1 : 1 ≤ n)
    (hv : v < 2 ^ 32) :
    ((List.range' (maskNat n v) (2 ^ (32 - n))).map
      (fun x => ipString (bytes4 x))).Nodup := by
  have hidem : maskNat n (maskNat n v) = maskNat n v := maskNat_idem n v
  have hwlt : maskNat n v < 2 ^ 32 := maskNat_lt hv
  have hle := aligned_add_size_le hn hidem hwlt
  refine (List.nodup_range' _ _).map_on ?_
  intro x hx y hy hxy
  rw [List.mem_range'_1] at hx hy
  exact ipString_bytes4_inj (by omega) (by omega) hxy

/-- C2 (amended): for every string that `net.ParseCIDR` accepts as an IPv4
CIDR with nonzero prefix length, `getIPRange` returns exactly the addresses
of the block in ascending order — network and broadcast included — each
exactly once; in particular "10.0.0.0/30" yields
["10.0.0.0","10.0.0.1","10.0.0.2","10.0.0.3"], and an unparseable CIDR
yields an error.  (The original claim quantified over every valid CIDR; it
fails for the prefix-length-0 block, where the enumeration never returns —
see the counterexample theorem.) -/
theorem C2_amended_getIPRange :
    (∀ (s : String) (bytes : List Nat) (n : Nat),
        parseCIDR s = some (bytes, n) → 1 ≤ n →
        ∃ v, v < 2 ^ 32 ∧ bytes = bytes4 v ∧
          getIPRange s = .ok (some ((List.range' (maskNat n v) (2 ^ (32 - n))).map
              (fun x => ipString (bytes4 x)))) ∧
          ((List.range' (maskNat n v) (2 ^ (32 - n))).map
              (fun x => ipString (bytes4 x))).Nodup) ∧
    getIPRange "10.0.0.0/30" =
      .ok (some ["10.0.0.0", "10.0.0.1", "10.0.0.2", "10.0.0.3"]) ∧
    getIPRange "10.0.0.300/30" = .error "invalid CIDR address: 10.0.0.300/30" := by
  refine ⟨?_, by rfl, by rfl⟩
  intro s bytes n hp hn1
  obtain ⟨hn, v, hv, hb⟩ := parseCIDR_shape hp
  exact ⟨v, hv, hb, getIPRange_run hp hn1 hv hb, getIPRange_nodup hn hn1 hv⟩

/-- Witness for C2 (amended) at the concrete input "10.0.0.0/30". -/
theorem C2_amended_witness :
    ∃ v, v < 2 ^ 32 ∧ ([10, 0, 0, 0] : List Nat) = bytes4 v ∧
      getIPRange "10.0.0.0/30" =
        .ok (some ((List.range' (maskNat 30 v) (2 ^ (32 - 30))).map
          (fun x => ipString (bytes4 x)))) ∧
      ((List.range' (maskNat 30 v) (2 ^ (32 - 30))).map
          (fun x => ipString (bytes4 x))).Nodup :=
  C2_amended_getIPRange.1 "10.0.0.0/30" [10, 0, 0, 0] 30 (by rfl) (by norm_num)

/-- C2 counterexample: "0.0.0.0/0" is a valid CIDR, but `getIPRange` never
returns its address list — the loop's increment wraps inside the block
forever (`.ok none` is this embedding's marker for the non-terminating Go
run), so the claim "for every valid CIDR the expander returns the list of
every address" is false. -/
theorem C2_counterexample : getIPRange "0.0.0.0/0" = .ok none := by
  have hp : parseCIDR "0.0.0.0/0" = some ([0, 0, 0, 0], 0) := by rfl
  have hm : maskIP [0, 0, 0, 0] (cidrMask 0) = bytes4 0 := by rfl
  unfold getIPRange
  rw [hp]
  dsimp only
  rw [hm, ipRangeLoop_mask0_none _ _ (by rfl)]

/-- C8 counterexample: the block "255.255.255.255/32" contains the all-ones
address, yet the enumeration terminates — after the increment wraps to
0.0.0.0 the containment test fails, so the loop exits.  This refutes the
claimed "terminates exactly for blocks not containing 255.255.255.255". -/
theorem C8_counterexample :
    getIPRange "255.255.255.255/32" = .ok (some ["255.255.255.255"]) := by rfl

/-- C8 (amended): the expansion loop terminates for every parsed IPv4 CIDR
with nonzero prefix length (even blocks containing 255.255.255.255, whose
increment wraps to 0.0.0.0 and leaves the block), and fails to terminate
exactly for a prefix length of 0, i.e. the block that is the whole address
space — the only block the wrapped address can never leave. -/
theorem C8_amended_termination :
    (∀ (s : String) (bytes : List Nat) (n : Nat),
        parseCIDR s = some (bytes, n) → 1 ≤ n →
        ∃ l, getIPRange s = .ok (some l)) ∧
    (∀ (s : String) (bytes : List Nat),
        parseCIDR s = some (bytes, 0) →
        getIPRange s = .ok none) := by
  constructor
  · intro s bytes n hp hn1
    obtain ⟨hn, v, hv, hb⟩ := parseCIDR_shape hp
    exact ⟨_, getIPRange_run hp hn1 hv hb⟩
  · intro s bytes hp
    obtain ⟨-, v, hv, hb⟩ := parseCIDR_shape hp
    have hmz : maskNat 0 v = 0 := by
      rw [maskNat, Nat.sub_zero, Nat.div_eq_of_lt hv, Nat.zero_mul]
    unfold getIPRange
    rw [hp]
    dsimp only
    rw [hb, maskIP_bytes4 (by norm_num) hv, hmz,
      ipRangeLoop_mask0_none _ _ (by rfl)]

/-- Witness for C8 (amended): a terminating /24 run and the diverging /0. -/
theorem C8_amended_witness :
    (∃ l, getIPRange "10.0.0.0/24" = .ok (some l)) ∧
      getIPRange "0.0.0.0/0" = .ok none :=
  ⟨C8_amended_termination.1 "10.0.0.0/24" [10, 0, 0, 0] 24 (by rfl) (by norm_num),
   C8_amended_termination.2 "0.0.0.0/0" [0, 0, 0, 0] (by rfl)⟩

theorem blockHosts_trace_addr (gw : Gateway) :
    ∀ hosts, ∀ cmd ∈ (blockHosts gw hosts).2, ∃ ip, cmd = .addrAdd ip := by
  intro hosts
  induction hosts with
  | nil => intro cmd hc; simp [blockHosts] at hc
  | cons h t ih =>
    intro cmd hc
    simp only [blockHosts] at hc
    rcases hgw : addCephBlocklist gw h false with e | u <;> rw [hgw] at hc <;>
      simp only [List.mem_cons, List.mem_singleton] at hc
    · exact ⟨h, by simpa using hc⟩
    · rcases hc with rfl | hc
      · exact ⟨h, rfl⟩
      · exact ih cmd hc

theorem blockHosts_ok (gw : Gateway) :
    ∀ hosts, (∀ h ∈ hosts, gw (.addrAdd h) = none) →
      blockHosts gw hosts = (.ok (), hosts.map .addrAdd) := by
  intro hosts
  induction hosts with
  | nil => intro _; rfl
  | cons h t ih =>
    intro hok
    have hh : gw (.addrAdd h) = none := hok h (List.mem_cons_self h t)
    have hcmd : addCephBlocklist gw h false = .ok () := by
      simp [addCephBlocklist, hh]
    simp only [blockHosts, hcmd, ih (fun x hx => hok x (List.mem_cons_of_mem _ hx)),
      List.map_cons]

theorem addFenceLoop_false_trace_addr (gw : Gateway) :
    ∀ cidrs, ∀ cmd ∈ (addFenceLoop gw false cidrs).2, ∃ ip, cmd = .addrAdd ip := by
  intro cidrs
  induction cidrs with
  | nil => intro cmd hc; simp [addFenceLoop] at hc
  | cons c rest ih =>
    intro cmd hc
    simp only [addFenceLoop, if_neg (Bool.false_ne_true)] at hc
    rcases hr : getIPRange c with emsg | _ | hosts <;> rw [hr] at hc <;>
      dsimp only at hc
    · simp at hc
    · simp at hc
    · rcases hb : blockHosts gw hosts with ⟨e | u, tr⟩ <;> rw [hb] at hc <;>
        dsimp only at hc
      · have := blockHosts_trace_addr gw hosts cmd
        rw [hb] at this
        exact this hc
      · rw [List.mem_append] at hc
        rcases hc with hc | hc
        · have := blockHosts_trace_addr gw hosts cmd
          rw [hb] at this
          exact this hc
        · exact ih cmd hc

theorem addFenceLoop_false_ok (gw : Gateway) (hosts : String → List String) :
    ∀ cidrs, (∀ d ∈ cidrs, getIPRange d = .ok (some (hosts d))) →
      (∀ d ∈ cidrs, ∀ h ∈ hosts d, gw (.addrAdd h) = none) →
      addFenceLoop gw false cidrs =
        (some (.ok ()), cidrs.flatMap (fun d => (hosts d).map .addrAdd)) := by
  intro cidrs
  induction cidrs with
  | nil => intro _ _; rfl
  | cons c rest ih =>
    intro hexp hok
    have h1 : getIPRange c = .ok (some (hosts c)) := hexp c (List.mem_cons_self c rest)
    have h2 : blockHosts gw (hosts c) = (.ok (), (hosts c).map .addrAdd) :=
      blockHosts_ok gw (hosts c) (hok c (List.mem_cons_self c rest))
    have h3 := ih (fun d hd => hexp d (List.mem_cons_of_mem _ hd))
      (fun d hd => hok d (List.mem_cons_of_mem _ hd))
    simp only [addFenceLoop, if_neg (Bool.false_ne_true), h1, h2, h3, List.flatMap_cons]

/-- C3: capability negotiation in `AddNetworkFence`.  With the gateway as an
oracle: (1) while no range command has failed with an error containing
"invalid command", every range is blocked by exactly one range command;
(2) after the first such failure the failing range and all later ranges are
handled purely per-address (one address command per expanded address when
everything succeeds — range mode is never retried in the call); (3) a range
command error whose wrapped text does not contain "invalid command" aborts
the call immediately with that error and no further commands. -/
theorem C3_AddNetworkFence_fallback (gw : Gateway) :
    (∀ cidrs, (∀ c ∈ cidrs, gw (.rangeAdd c) = none) →
      AddNetworkFence gw cidrs = (some (.ok ()), cidrs.map .rangeAdd)) ∧
    (∀ pre c post e, (∀ p ∈ pre, gw (.rangeAdd p) = none) →
      gw (.rangeAdd c) = some e →
      containsStr (blocklistErr c e) invalidCommandStr = true →
      (∀ cmd ∈ (AddNetworkFence gw (pre ++ c :: post)).2.drop (pre.length + 1),
        ∃ ip, cmd = .addrAdd ip) ∧
      ((AddNetworkFence gw (pre ++ c :: post)).2.take (pre.length + 1) =
        pre.map .rangeAdd ++ [.rangeAdd c]) ∧
      (∀ hosts : String → List String,
        (∀ d ∈ c :: post, getIPRange d = .ok (some (hosts d))) →
        (∀ d ∈ c :: post, ∀ h ∈ hosts d, gw (.addrAdd h) = none) →
        AddNetworkFence gw (pre ++ c :: post) =
          (some (.ok ()), pre.map .rangeAdd ++ .rangeAdd c ::
            (c :: post).flatMap (fun d => (hosts d).map .addrAdd)))) ∧
    (∀ pre c post e, (∀ p ∈ pre, gw (.rangeAdd p) = none) →
      gw (.rangeAdd c) = some e →
      containsStr (blocklistErr c e) invalidCommandStr = false →
      AddNetworkFence gw (pre ++ c :: post) =
        (some (.error ("failed to add blocklist range " ++ goQuote c ++ ": " ++
          blocklistErr c e)), pre.map .rangeAdd ++ [.rangeAdd c])) := by
  have cons_ok : ∀ c rest, gw (.rangeAdd c) = none →
      addFenceLoop gw true (c :: rest) =
        ((addFenceLoop gw true rest).1,
          .rangeAdd c :: (addFenceLoop gw true rest).2) := by
    intro c rest h
    simp [addFenceLoop, addCephBlocklist, h]
  have cons_downgrade : ∀ c rest e, gw (.rangeAdd c) = some e →
      containsStr (blocklistErr c e) invalidCommandStr = true →
      addFenceLoop gw true (c :: rest) =
        ((addFenceLoop gw false (c :: rest)).1,
          .rangeAdd c :: (addFenceLoop gw false (c :: rest)).2) := by
    intro c rest e h hsub
    conv_lhs => rw [addFenceLoop]
    conv_rhs => rw [addFenceLoop]
    simp [addCephBlocklist, h, hsub]
  have cons_fatal : ∀ c rest e, gw (.rangeAdd c) = some e →
      containsStr (blocklistErr c e) invalidCommandStr = false →
      addFenceLoop gw true (c :: rest) =
        (some (.error ("failed to add blocklist range " ++ goQuote c ++ ": " ++
          blocklistErr c e)), [.rangeAdd c]) := by
    intro c rest e h hsub
    rw [addFenceLoop]
    simp [addCephBlocklist, h, hsub]
  refine ⟨?_, ?_, ?_⟩
  · intro cidrs hok
    induction cidrs with
    | nil => rfl
    | cons c rest ih =>
      have h1 := cons_ok c rest (hok c (List.mem_cons_self c rest))
      have h2 := ih (fun x hx => hok x (List.mem_cons_of_mem _ hx))
      simp only [AddNetworkFence] at h2 ⊢
      rw [h1, h2, List.map_cons]
  · intro pre c post e hpre hgw hsub
    induction pre with
    | nil =>
      have hdg := cons_downgrade c post e hgw hsub
      simp only [AddNetworkFence, List.nil_append, hdg, List.map_nil,
        List.length_nil, Nat.zero_add]
      refine ⟨?_, ?_, ?_⟩
      · intro cmd hc
        rw [List.drop_succ_cons, List.drop_zero] at hc
        exact addFenceLoop_false_trace_addr gw (c :: post) cmd hc
      · rw [List.take_succ_cons, List.take_zero]
      · intro hosts hexp hok
        rw [addFenceLoop_false_ok gw hosts (c :: post) hexp hok]
    | cons p pre' ih =>
      have hp : gw (.rangeAdd p) = none := hpre p (List.mem_cons_self p pre')
      have hro := cons_ok p (pre' ++ c :: post) hp
      have ihh := ih (fun x hx => hpre x (List.mem_cons_of_mem _ hx))
      obtain ⟨ih1, ih2, ih3⟩ := ihh
      simp only [AddNetworkFence, List.cons_append] at ih1 ih2 ih3 ⊢
      rw [hro]
      refine ⟨?_, ?_, ?_⟩
      · intro cmd hc
        simp only [List.length_cons] at hc ⊢
        rw [show pre'.length + 1 + 1 = (pre'.length + 1) + 1 by rfl,
          List.drop_succ_cons] at hc
        exact ih1 cmd hc
      · simp only [List.length_cons, List.map_cons, List.cons_append]
        rw [show pre'.length + 1 + 1 = (pre'.length + 1) + 1 by rfl,
          List.take_succ_cons, ih2]
      · intro hosts hexp hok
        rw [ih3 hosts hexp hok]
        simp
  · intro pre c post e hpre hgw hsub
    induction pre with
    | nil =>
      have := cons_fatal c post e hgw hsub
      simp only [AddNetworkFence, List.nil_append, List.map_nil]
      rw [this]
    | cons p pre' ih =>
      have hp : gw (.rangeAdd p) = none := hpre p (List.mem_cons_self p pre')
      have hro := cons_ok p (pre' ++ c :: post) hp
      have ihh := ih (fun x hx => hpre x (List.mem_cons_of_mem _ hx))
      simp only [AddNetworkFence, List.cons_append] at ihh ⊢
      rw [hro, ihh]
      simp

/-- Witness for C3: the three behaviours at concrete gateways and ranges. -/
theorem C3_witness :
    AddNetworkFence gwAllOk ["192.168.1.0/24"] =
      (some (.ok ()), [.rangeAdd "192.168.1.0/24"]) ∧
    AddNetworkFence gwRangeUnsupported ["10.0.0.0/30"] =
      (some (.ok ()), [.rangeAdd "10.0.0.0/30", .addrAdd "10.0.0.0",
        .addrAdd "10.0.0.1", .addrAdd "10.0.0.2", .addrAdd "10.0.0.3"]) ∧
    AddNetworkFence gwRangeFatal ["10.0.0.0/30"] =
      (some (.error ("failed to add blocklist range " ++ goQuote "10.0.0.0/30" ++
        ": " ++ blocklistErr "10.0.0.0/30" ("permission denied", ""))),
       [.rangeAdd "10.0.0.0/30"]) := by
  refine ⟨?_, ?_, ?_⟩
  · have := (C3_AddNetworkFence_fallback gwAllOk).1 ["192.168.1.0/24"]
      (by intro c hc; rfl)
    simpa using this
  · have h := (C3_AddNetworkFence_fallback gwRangeUnsupported).2.1
      [] "10.0.0.0/30" [] ("exit status 22: invalid command", "")
      (by intro p hp; simp at hp) (by rfl) (by rfl)
    have h2 := h.2.2 (fun _ => ["10.0.0.0", "10.0.0.1", "10.0.0.2", "10.0.0.3"])
      (by intro d hd; simp only [List.mem_cons, List.not_mem_nil, or_false] at hd
          subst hd; rfl)
      (by intro d _ h _; rfl)
    simpa using h2
  · have := (C3_AddNetworkFence_fallback gwRangeFatal).2.2
      [] "10.0.0.0/30" [] ("permission denied", "")
      (by intro p hp; simp at hp) (by rfl) (by rfl)
    simpa using this

/-! ### Symbolic evaluation lemmas for `ParseClientIP` on the canonical
`"client.<id> <a.b.c.d>:<port>/<nonce>"` descriptor shape. -/

theorem takeWhile_app {p : Char → Bool} {l₁ l₂ : List Char} {c : Char}
    (h : ∀ x ∈ l₁, p x = true) (hc : p c = false) :
    (l₁ ++ c :: l₂).takeWhile p = l₁ ∧ (l₁ ++ c :: l₂).dropWhile p = c :: l₂ := by
  induction l₁ with
  | nil => simp [List.takeWhile_cons, List.dropWhile_cons, hc]
  | cons x t ih =>
    have hx : p x = true := h x (List.mem_cons_self x t)
    have hrec := ih (fun y hy => h y (List.mem_cons_of_mem _ hy))
    simp [List.takeWhile_cons, List.dropWhile_cons, hx, hrec.1, hrec.2]

theorem takeDigits_app {l₁ l₂ : List Char} {c : Char}
    (h : ∀ x ∈ l₁, x.isDigit = true) (hc : c.isDigit = false) :
    takeDigits (l₁ ++ c :: l₂) = (l₁, c :: l₂) := by
  have hh := @takeWhile_app Char.isDigit l₁ l₂ c h hc
  simp [takeDigits, hh.1, hh.2]

theorem takeHex_app {budget : Nat} {l₁ l₂ : List Char} {c : Char}
    (h : ∀ x ∈ l₁, isHexDigitGo x = true)
    (hc : isHexDigitGo c = false) (hlen : l₁.length ≤ budget) :
    takeHex budget (l₁ ++ c :: l₂) = (l₁, c :: l₂) := by
  induction l₁ generalizing budget with
  | nil =>
    cases budget <;> simp [takeHex, hc]
  | cons x t ih =>
    obtain ⟨b, rfl⟩ : ∃ b, budget = b + 1 :=
      ⟨budget - 1, by simp only [List.length_cons] at hlen; omega⟩
    have hx : isHexDigitGo x = true := h x (List.mem_cons_self x t)
    have hrec := @ih b (fun y hy => h y (List.mem_cons_of_mem _ hy))
      (by simp only [List.length_cons] at hlen; omega)
    simp [takeHex, hx, hrec]

theorem splitOnChar_app {sep : Char} {f rest : List Char} (h : sep ∉ f) :
    splitOnChar sep (f ++ sep :: rest) = f :: splitOnChar sep rest := by
  induction f with
  | nil => simp [splitOnChar]
  | cons x t ih =>
    have hx : ¬x = sep := fun hx => h (hx ▸ List.mem_cons_self x t)
    have hrec := ih (fun hm => h (List.mem_cons_of_mem _ hm))
    simp only [List.cons_append, splitOnChar, if_neg hx, List.append_eq, hrec]

theorem splitOnChar_no_sep {sep : Char} {l : List Char} (h : sep ∉ l) :
    splitOnChar sep l = [l] := by
  induction l with
  | nil => rfl
  | cons x t ih =>
    have hx : ¬x = sep := fun hx => h (hx ▸ List.mem_cons_self x t)
    have hrec := ih (fun hm => h (List.mem_cons_of_mem _ hm))
    simp only [splitOnChar, if_neg hx, hrec]

theorem findDotColon_digits {l₁ r : List Char} (h : ∀ x ∈ l₁, x.isDigit = true) :
    parseIPGo.findDotColon (l₁ ++ '.' :: r) = some true := by
  induction l₁ with
  | nil => rfl
  | cons x t ih =>
    have hx : x.isDigit = true := h x (List.mem_cons_self x t)
    have hdot : ¬x = '.' := fun hc => by rw [hc] at hx; exact absurd hx (by decide)
    have hcolon : ¬x = ':' := fun hc => by rw [hc] at hx; exact absurd hx (by decide)
    simp only [List.cons_append, parseIPGo.findDotColon, if_neg hdot, if_neg hcolon]
    exact ih (fun y hy => h y (List.mem_cons_of_mem _ hy))

theorem digit_ne_v {c : Char} (h : c.isDigit = true) : ¬c = 'v' :=
  fun hc => by rw [hc] at h; exact absurd h (by decide)

theorem digit_not_dot {c : Char} (h : c.isDigit = true) : c ∉ ['.'] := by
  intro hm
  simp only [List.mem_singleton] at hm
  rw [hm] at h
  exact absurd h (by decide)

theorem isHex_of_isDigit {c : Char} (h : c.isDigit = true) : isHexDigitGo c = true := by
  simp [isHexDigitGo, h]

theorem toString_byte_digits : ∀ b < 256, ((toString b).data.all Char.isDigit) = true := by
  decide

theorem toString_byte_len3 : ∀ b < 256, (toString b).data.length ≤ 3 := by decide

theorem toString_byte_ne_nil : ∀ b < 256, (toString b).data ≠ [] := by decide

theorem parseV4Field_toString : ∀ b < 256, parseV4Field (toString b).data = some b := by
  decide

theorem matchColonHex_not_colon {k : Nat} {c : Char} {t : List Char}
    (hc : ¬c = ':') : matchColonHex (k + 1) (c :: t) = none := by
  simp [matchColonHex, hc]

/-- The pattern matcher at the position of a dotted quad of digit runs
followed by `:<rest>`: the IPv6 alternative fails (a `.` where `:` is
needed) and the IPv4 alternative captures exactly the quad. -/
theorem matchPatternAt_quad {dA dB dC dD rest : List Char}
    (hA : ∀ x ∈ dA, x.isDigit = true) (hAne : dA ≠ []) (hAlen : dA.length ≤ 4)
    (hB : ∀ x ∈ dB, x.isDigit = true) (hBne : dB ≠ [])
    (hC : ∀ x ∈ dC, x.isDigit = true) (hCne : dC ≠ [])
    (hD : ∀ x ∈ dD, x.isDigit = true) (hDne : dD ≠ []) :
    matchPatternAt (dA ++ '.' :: (dB ++ '.' :: (dC ++ '.' :: (dD ++ ':' :: rest)))) =
      some (dA ++ '.' :: (dB ++ '.' :: (dC ++ '.' :: dD))) := by
  obtain ⟨x, dA', rfl⟩ : ∃ y t, dA = y :: t := by
    cases dA with
    | nil => exact absurd rfl hAne
    | cons y t => exact ⟨y, t, rfl⟩
  have hx : x.isDigit = true := hA x (List.mem_cons_self x dA')
  have hxhexlist : ∀ y ∈ x :: dA', isHexDigitGo y = true :=
    fun y hy => isHex_of_isDigit (hA y hy)
  have hhex6 : takeHex 4 ((x :: dA') ++ '.' ::
      (dB ++ '.' :: (dC ++ '.' :: (dD ++ ':' :: rest)))) =
      (x :: dA', '.' :: (dB ++ '.' :: (dC ++ '.' :: (dD ++ ':' :: rest)))) :=
    takeHex_app hxhexlist (by decide) hAlen
  have hd1 : takeDigits ((x :: dA') ++ '.' ::
      (dB ++ '.' :: (dC ++ '.' :: (dD ++ ':' :: rest)))) =
      (x :: dA', '.' :: (dB ++ '.' :: (dC ++ '.' :: (dD ++ ':' :: rest)))) :=
    takeDigits_app hA (by decide)
  have hd2 : takeDigits (dB ++ '.' :: (dC ++ '.' :: (dD ++ ':' :: rest))) =
      (dB, '.' :: (dC ++ '.' :: (dD ++ ':' :: rest))) :=
    takeDigits_app hB (by decide)
  have hd3 : takeDigits (dC ++ '.' :: (dD ++ ':' :: rest)) =
      (dC, '.' :: (dD ++ ':' :: rest)) :=
    takeDigits_app hC (by decide)
  have hd4 : takeDigits (dD ++ ':' :: rest) = (dD, ':' :: rest) :=
    takeDigits_app hD (by decide)
  obtain ⟨y2, dB', rfl⟩ : ∃ y t, dB = y :: t := by
    cases dB with
    | nil => exact absurd rfl hBne
    | cons y t => exact ⟨y, t, rfl⟩
  obtain ⟨y3, dC', rfl⟩ : ∃ y t, dC = y :: t := by
    cases dC with
    | nil => exact absurd rfl hCne
    | cons y t => exact ⟨y, t, rfl⟩
  obtain ⟨y4, dD', rfl⟩ : ∃ y t, dD = y :: t := by
    cases dD with
    | nil => exact absurd rfl hDne
    | cons y t => exact ⟨y, t, rfl⟩
  simp only [List.cons_append] at hhex6 hd1 hd2 hd3 hd4 ⊢
  rw [matchPatternAt]
  rw [if_neg (digit_ne_v hx)]
  rw [matchGroupAt, matchIPv6At, hhex6]
  dsimp only
  have hcolon : matchColonHex 7 ('.' :: (y2 :: (dB' ++ '.' ::
      (y3 :: (dC' ++ '.' :: (y4 :: (dD' ++ ':' :: rest))))))) = none :=
    matchColonHex_not_colon (by decide)
  rw [hcolon, matchIPv4At, hd1]
  dsimp only
  rw [if_pos rfl, hd2]
  dsimp only
  rw [if_pos rfl, hd3]
  dsimp only
  rw [if_pos rfl, hd4]
  simp [List.cons_append]

/-- Scanning skips every position inside the concrete leading token
`"client.4305 "`: no suffix of it can start a match, independent of what
follows, so the search continues at the address. -/
theorem reFindIP_skip (addr : List Char) :
    reFindIP ("client.4305 ".data ++ addr) = reFindIP addr := rfl

/-- `net.ParseIP` on a canonical dotted quad built from byte values,
followed by `IP.String()`, reproduces the same text. -/
theorem parseIPGo_quad {a b c d : Nat} (ha : a < 256) (hb : b < 256)
    (hc : c < 256) (hd : d < 256) :
    parseIPGo ((toString a).data ++ '.' :: ((toString b).data ++ '.' ::
      ((toString c).data ++ '.' :: (toString d).data))) = some (.v4 [a, b, c, d]) := by
  have hA : ∀ x ∈ (toString a).data, x.isDigit = true := by
    have := toString_byte_digits a ha
    simpa [List.all_eq_true] using this
  have hB : ∀ x ∈ (toString b).data, x.isDigit = true := by
    have := toString_byte_digits b hb
    simpa [List.all_eq_true] using this
  have hC : ∀ x ∈ (toString c).data, x.isDigit = true := by
    have := toString_byte_digits c hc
    simpa [List.all_eq_true] using this
  have hD : ∀ x ∈ (toString d).data, x.isDigit = true := by
    have := toString_byte_digits d hd
    simpa [List.all_eq_true] using this
  have noDotA : '.' ∉ (toString a).data := fun hm =>
    absurd (hA '.' hm) (by decide)
  have noDotB : '.' ∉ (toString b).data := fun hm =>
    absurd (hB '.' hm) (by decide)
  have noDotC : '.' ∉ (toString c).data := fun hm =>
    absurd (hC '.' hm) (by decide)
  have noDotD : '.' ∉ (toString d).data := fun hm =>
    absurd (hD '.' hm) (by decide)
  rw [parseIPGo]
  rw [findDotColon_digits hA]
  dsimp only
  rw [parseIPv4Chars]
  rw [splitOnChar_app noDotA]
  rw [show ((toString b).data ++ '.' :: ((toString c).data ++ '.' ::
    (toString d).data)) = (toString b).data ++ '.' :: ((toString c).data ++ '.' ::
    (toString d).data) from rfl]
  rw [splitOnChar_app noDotB, splitOnChar_app noDotC, splitOnChar_no_sep noDotD]
  dsimp only
  rw [parseV4Field_toString a ha, parseV4Field_toString b hb,
    parseV4Field_toString c hc, parseV4Field_toString d hd]
  rfl

/-- C5 counterexample: the claim includes compressed IPv6 descriptors such
as "client.9 v2:[2001:db8::1]:0/123", but the source regular expression
only matches full 8-group IPv6 literals, so extraction errors on the
compressed form instead of returning the embedded address. -/
theorem C5_counterexample :
    ParseClientIP "client.9 v2:[2001:db8::1]:0/123" =
      .error "failed to extract IP address, incorrect format: client.9 v2:[2001:db8::1]:0/123" := by
  rfl

/-- C5 (amended): for canonical descriptors `client.<id> <addr>:<port>/<nonce>`
the extraction returns the canonical address string when the address is
IPv4 (proved for every byte quad) or a full uncompressed 8-group IPv6
literal (which is returned canonically compressed, the `v2:` transport
prefix stripped); a descriptor without a recognizable address substring
yields an error.  Compressed IPv6 input is not recognized (see the
counterexample). -/
theorem C5_amended_ParseClientIP :
    (∀ a b c d : Nat, a < 256 → b < 256 → c < 256 → d < 256 →
      ParseClientIP ("client.4305 " ++ ipString [a, b, c, d] ++ ":0/422650892") =
        .ok (ipString [a, b, c, d])) ∧
    ParseClientIP "client.4305 172.21.9.34:0/422650892" = .ok "172.21.9.34" ∧
    ParseClientIP "client.9 v2:[2001:db8:0:0:0:0:0:1]:0/123" = .ok "2001:db8::1" ∧
    ParseClientIP "client.4305 no address here" =
      .error "failed to extract IP address, incorrect format: client.4305 no address here" := by
  refine ⟨?_, by rfl, by rfl, by rfl⟩
  intro a b c d ha hb hc hd
  have hA : ∀ x ∈ (toString a).data, x.isDigit = true := by
    have := toString_byte_digits a ha
    simpa [List.all_eq_true] using this
  have hB : ∀ x ∈ (toString b).data, x.isDigit = true := by
    have := toString_byte_digits b hb
    simpa [List.all_eq_true] using this
  have hC : ∀ x ∈ (toString c).data, x.isDigit = true := by
    have := toString_byte_digits c hc
    simpa [List.all_eq_true] using this
  have hD : ∀ x ∈ (toString d).data, x.isDigit = true := by
    have := toString_byte_digits d hd
    simpa [List.all_eq_true] using this
  have hAne := toString_byte_ne_nil a ha
  have hBne := toString_byte_ne_nil b hb
  have hCne := toString_byte_ne_nil c hc
  have hDne := toString_byte_ne_nil d hd
  have hAlen : (toString a).data.length ≤ 4 :=
    le_trans (toString_byte_len3 a ha) (by norm_num)
  have hmatch := @matchPatternAt_quad (toString a).data (toString b).data
    (toString c).data (toString d).data "0/422650892".data
    hA hAne hAlen hB hBne hC hCne hD hDne
  have hpg := parseIPGo_quad ha hb hc hd
  have hdata : ("client.4305 " ++ ipString [a, b, c, d] ++ ":0/422650892").data =
      "client.4305 ".data ++ ((toString a).data ++ '.' :: ((toString b).data ++ '.' ::
        ((toString c).data ++ '.' :: ((toString d).data ++ ':' ::
          "0/422650892".data)))) := by
    simp only [String.data_append, ipString_data, List.append_assoc, List.cons_append]
  rw [ParseClientIP, hdata, reFindIP_skip]
  obtain ⟨x, dA', hxa⟩ : ∃ y t, (toString a).data = y :: t := by
    rcases hne : (toString a).data with _ | ⟨y, t⟩
    · exact absurd hne hAne
    · exact ⟨y, t, rfl⟩
  rw [hxa] at hmatch hpg
  simp only [List.cons_append] at hmatch hpg
  rw [hxa]
  simp only [List.cons_append]
  rw [reFindIP, hmatch]
  dsimp only
  rw [hpg]
  rfl

/-- Witness for C5 (amended) at the address bytes of the claim's example. -/
theorem C5_amended_witness :
    ParseClientIP ("client.4305 " ++ ipString [172, 21, 9, 34] ++ ":0/422650892") =
      .ok (ipString [172, 21, 9, 34]) :=
  C5_amended_ParseClientIP.1 172 21 9 34 (by norm_num) (by norm_num) (by norm_num)
    (by norm_num)

theorem digit_toNat {c : Char} (h : c.isDigit = true) :
    48 ≤ c.toNat ∧ c.toNat ≤ 57 := by
  simp [Char.isDigit] at h
  obtain ⟨h1, h2⟩ := h
  constructor <;> simpa [Char.le_def, Char.toNat] using ‹_›

theorem digit_not_space {c : Char} (h : c.isDigit = true) : goIsSpace c = false := by
  have hn := digit_toNat h
  simp only [goIsSpace, Bool.or_eq_false_iff, decide_eq_false_iff_not]
  omega

theorem char_toNat_ne {c d : Char} (h : c.toNat ≠ d.toNat) : ¬c = d :=
  fun he => h (he ▸ rfl)

/-- `goFields` on `token ++ ' ' ++ rest` starts with the token. -/
theorem goFields_first {tok rest : List Char} (htok : tok ≠ [])
    (hts : ∀ x ∈ tok, goIsSpace x = false) :
    ∃ flds, goFields (tok ++ ' ' :: rest) = tok :: flds := by
  obtain ⟨x, tok', rfl⟩ : ∃ y t, tok = y :: t := by
    cases tok with
    | nil => exact absurd rfl htok
    | cons y t => exact ⟨y, t, rfl⟩
  have hx : goIsSpace x = false := hts x (List.mem_cons_self x tok')
  have htw := @takeWhile_app (fun c => !goIsSpace c) tok' rest ' '
    (fun y hy => by simp [hts y (List.mem_cons_of_mem _ hy)]) (by decide)
  refine ⟨goFieldsAux (tok' ++ ' ' :: rest).length
    ((tok' ++ ' ' :: rest).dropWhile (fun c => !goIsSpace c)), ?_⟩
  simp only [goFields, List.cons_append, List.length_cons, goFieldsAux, hx,
    Bool.false_eq_true, if_false, List.append_eq, htw.1, htw.2]

theorem digit_ne_minus {c : Char} (h : c.isDigit = true) : ¬c = '-' :=
  char_toNat_ne (by
    have h1 := digit_toNat h
    have h2 : ('-').toNat = 45 := rfl
    omega)

theorem digit_ne_plus {c : Char} (h : c.isDigit = true) : ¬c = '+' :=
  char_toNat_ne (by
    have h1 := digit_toNat h
    have h2 : ('+').toNat = 43 := rfl
    omega)

theorem isPrefixOf_self_append (l t : List Char) : l.isPrefixOf (l ++ t) = true := by
  induction l with
  | nil => simp [List.isPrefixOf]
  | cons c l ih => simp [List.isPrefixOf, ih]

/-- C6 counterexample: the claim says the id is extracted for any session
kind, but only the literal prefix "client." is stripped, so an "osd.42"
descriptor fails integer parsing instead of returning 42. -/
theorem C6_counterexample :
    fetchID "osd.42 1.2.3.4:0/5" =
      .error "failed to convert client ID to int: invalid syntax" := by rfl

/-- C6 (amended): id extraction strips only the literal kind prefix
"client." from the leading whitespace-separated token.  For client-kind
descriptors with a numeric id it returns that id, and in general it
succeeds with value `n` exactly when `Atoi` applied to the stripped leading
token returns `n` — so every other kind, whose token keeps "kind.", fails
integer parsing and errors. -/
theorem C6_amended_fetchID :
    (∀ (ds rest : List Char), ds ≠ [] → (∀ x ∈ ds, x.isDigit = true) →
      digitsVal ds < 2 ^ 63 →
      fetchID (String.mk ("client.".data ++ ds ++ ' ' :: rest)) =
        .ok (digitsVal ds)) ∧
    (∀ (tok rest : List Char) (n : Int), tok ≠ [] →
      (∀ x ∈ tok, goIsSpace x = false) →
      (fetchID (String.mk (tok ++ ' ' :: rest)) = .ok n ↔
        goAtoi (trimClientDot tok) = .ok n)) := by
  have hfid : ∀ (tok rest : List Char), tok ≠ [] →
      (∀ x ∈ tok, goIsSpace x = false) →
      fetchID (String.mk (tok ++ ' ' :: rest)) =
        match goAtoi (trimClientDot tok) with
        | .ok n => .ok n
        | .error e => .error ("failed to convert client ID to int: " ++ e) := by
    intro tok rest htok hts
    obtain ⟨flds, hf⟩ := goFields_first htok hts
    rw [fetchID]
    rw [show (String.mk (tok ++ ' ' :: rest)).data = tok ++ ' ' :: rest from rfl]
    rw [hf]
  constructor
  · intro ds rest hne hdig hbound
    have hts : ∀ x ∈ "client.".data ++ ds, goIsSpace x = false := by
      intro x hx
      rw [List.mem_append] at hx
      rcases hx with hx | hx
      · fin_cases hx <;> rfl
      · exact digit_not_space (hdig x hx)
    have h1 := hfid ("client.".data ++ ds) rest (by simp [hne]) hts
    rw [show "client.".data ++ ds ++ ' ' :: rest =
      ("client.".data ++ ds) ++ ' ' :: rest by simp] at h1
    rw [h1]
    have htrim : trimClientDot ("client.".data ++ ds) = ds := by
      rw [trimClientDot,
        if_pos (isPrefixOf_self_append _ _),
        show (7 : Nat) = ("client.".data).length from rfl, List.drop_left]
    rw [htrim]
    obtain ⟨x, ds', rfl⟩ : ∃ y t, ds = y :: t := by
      cases ds with
      | nil => exact absurd rfl hne
      | cons y t => exact ⟨y, t, rfl⟩
    have hx : x.isDigit = true := hdig x (List.mem_cons_self x ds')
    rw [goAtoi]
    simp only [decide_eq_false (digit_ne_minus hx), decide_eq_false (digit_ne_plus hx),
      Bool.or_self, Bool.false_eq_true, if_false, List.isEmpty_cons]
    have hall : ((x :: ds').all Char.isDigit) = true := by
      rw [List.all_eq_true]
      exact hdig
    rw [if_neg (by simp [hall])]
    rw [if_neg (digit_ne_minus hx), if_neg (by omega)]
  · intro tok rest n htok hts
    rw [hfid tok rest htok hts]
    rcases h : goAtoi (trimClientDot tok) with e | m <;> simp

/-- Witness for C6 (amended): the concrete descriptor of the spec's
example, and the error characterization at an "osd." token. -/
theorem C6_amended_witness :
    fetchID (String.mk ("client.".data ++ "4305".data ++ ' ' ::
        "172.21.9.34:0/422650892".data)) = .ok (digitsVal "4305".data) ∧
    (fetchID (String.mk ("osd.42".data ++ ' ' :: "1.2.3.4:0/5".data)) =
        .ok 42 ↔ goAtoi (trimClientDot "osd.42".data) = .ok 42) :=
  ⟨C6_amended_fetchID.1 "4305".data "172.21.9.34:0/422650892".data (by decide)
      (by decide) (by decide),
   C6_amended_fetchID.2 "osd.42".data "1.2.3.4:0/5".data 42 (by decide) (by decide)⟩

/-- C4: evaluated at the failing input.  The session
"client.4305 172.21.9.34:0/422650892" lies inside both supplied ranges,
and `AddClientEviction` issues the terminate command for id 4305 twice —
once per containing range — because the `evictedIPs` record is written but
never consulted.  The claim (and the spec) says the command must not be
issued a second time. -/
theorem C4_double_eviction :
    AddClientEviction gwAllOk (fun _ => none)
      (.ok ["client.4305 172.21.9.34:0/422650892"])
      ["172.21.9.0/24", "172.21.0.0/16"] =
      (some (.ok ()), [4305, 4305],
       [.rangeAdd "172.21.9.0/24", .rangeAdd "172.21.0.0/16"]) := by rfl

/-- C10 counterexample: a session whose descriptor contains no recognizable
address does not get silently skipped — `AddClientEviction` aborts with an
error before evicting anything or touching the blocklist. -/
theorem C10_counterexample :
    AddClientEviction gwAllOk (fun _ => none)
      (.ok ["client.99 no-address"]) ["10.0.0.0/24"] =
      (some (.error ("error fetching client IP: " ++
        "failed to extract IP address, incorrect format: client.99 no-address")),
       [], []) := by rfl

theorem parseBlocklistLoop_mem {cidr : String} :
    ∀ es, ∀ x ∈ parseBlocklistLoop cidr es, isIPInCIDR x.IP cidr = true := by
  intro es
  induction es with
  | nil => intro x hx; simp [parseBlocklistLoop] at hx
  | cons e rest ih =>
    intro x hx
    rw [parseBlocklistLoop] at hx
    dsimp only at hx
    split_ifs at hx with h1 h2
    · exact ih x hx
    · rcases List.mem_cons.mp hx with rfl | hx2
      · exact h2
      · exact ih x hx2
    · exact ih x hx

/-- C10 (amended): the range-membership test is total and never reports an
error — unparseable CIDRs or addresses yield `false`, so a malformed range
matches nothing — and the blocklist scan keeps only entries whose parsed
address lies inside the range, silently skipping unparseable entries.  The
eviction path, however, does not skip a session with an unparseable
address: it aborts with an error (see the counterexample). -/
theorem C10_amended_isIPInCIDR :
    (∀ ip cidr : String, parseCIDR cidr = none → isIPInCIDR ip cidr = false) ∧
    (∀ ip cidr : String, parseIPGo ip.data = none → isIPInCIDR ip cidr = false) ∧
    (∀ blocklist cidr : String, ∀ x ∈ parseBlocklistForCIDR blocklist cidr,
      isIPInCIDR x.IP cidr = true) ∧
    (∀ (bad e : String) (clientsRest : List String) (cidr : String)
        (cidrs : List String) (evictErr : Int → Option String),
      ParseClientIP bad = .error e →
      evictLoopCidrs evictErr (bad :: clientsRest) (cidr :: cidrs) =
        (.error ("error fetching client IP: " ++ e), [])) := by
  refine ⟨?_, ?_, ?_, ?_⟩
  · intro ip cidr h
    rw [isIPInCIDR, h]
  · intro ip cidr h
    rcases hp : parseCIDR cidr with _ | ⟨bytes, n⟩
    · rw [isIPInCIDR, hp]
    · rw [isIPInCIDR, hp]
      dsimp only
      rw [h]
  · intro blocklist cidr x hx
    exact parseBlocklistLoop_mem (splitOnChar '\n' blocklist.data) x hx
  · intro bad e clientsRest cidr cidrs evictErr h
    rw [evictLoopCidrs, evictLoopClients, h]

/-- Witness for C10 (amended) at concrete malformed inputs. -/
theorem C10_amended_witness :
    isIPInCIDR "10.0.0.1" "not-a-cidr" = false ∧
    isIPInCIDR "not-an-ip" "10.0.0.0/24" = false ∧
    (∀ x ∈ parseBlocklistForCIDR "garbage-line\n1.2.3.4:0/77" "1.2.3.0/24",
      isIPInCIDR x.IP "1.2.3.0/24" = true) ∧
    evictLoopCidrs (fun _ => none) ["client.99 no-address"] ["10.0.0.0/24"] =
      (.error ("error fetching client IP: " ++
        "failed to extract IP address, incorrect format: client.99 no-address"), []) :=
  ⟨C10_amended_isIPInCIDR.1 "10.0.0.1" "not-a-cidr" (by rfl),
   C10_amended_isIPInCIDR.2.1 "not-an-ip" "10.0.0.0/24" (by rfl),
   C10_amended_isIPInCIDR.2.2.1 "garbage-line\n1.2.3.4:0/77" "1.2.3.0/24",
   C10_amended_isIPInCIDR.2.2.2 "client.99 no-address"
     "failed to extract IP address, incorrect format: client.99 no-address"
     [] "10.0.0.0/24" [] (fun _ => none) (by rfl)⟩

/-- C7 counterexample: an unrecognized metadata string is not mapped to
`Unknown` — `checkRbdImageEncrypted` returns the raw string itself, which
lies outside the closed set {Unknown, Prepared, Encrypted}. -/
theorem C7_counterexample :
    (checkRbdImageEncrypted [(encryptionMetaKey, "garbage")]).1 = ("garbage", none) ∧
    "garbage" ≠ rbdImageEncryptionUnknown ∧
    "garbage" ≠ rbdImageEncrypted ∧
    "garbage" ≠ rbdImageEncryptionPrepared :=
  ⟨by rfl, by decide, by decide, by decide⟩

/-- C7 (amended): reading the encryption state never errors in the
metadata-store model (a read that succeeds never turns into an error);
an absent key — canonical and legacy — yields `Unknown`; a present value
is returned trimmed but otherwise verbatim, so the recognized strings map
to Prepared/Encrypted while an unknown string is returned as itself (it is
distinct from `Unknown`, although no caller in this core distinguishes the
two); a value found only under the legacy key is copied to the canonical
key in the same call. -/
theorem C7_amended_checkRbdImageEncrypted :
    (∀ m : ImgMeta, (checkRbdImageEncrypted m).1.2 = none) ∧
    (∀ m : ImgMeta, getMeta m encryptionMetaKey = none →
      getMeta m oldEncryptionMetaKey = none →
      (checkRbdImageEncrypted m).1.1 = rbdImageEncryptionUnknown) ∧
    (∀ (m : ImgMeta) (v : String), getMeta m encryptionMetaKey = some v →
      (checkRbdImageEncrypted m).1.1 = String.mk (goTrimSpaceChars v.data)) ∧
    (∀ (m : ImgMeta) (v : String), getMeta m encryptionMetaKey = none →
      getMeta m oldEncryptionMetaKey = some v →
      (checkRbdImageEncrypted m).1.1 = String.mk (goTrimSpaceChars v.data) ∧
      getMeta (checkRbdImageEncrypted m).2 encryptionMetaKey = some v) := by
  refine ⟨?_, ?_, ?_, ?_⟩
  · intro m
    rcases h1 : getMeta m encryptionMetaKey with _ | v
    · rcases h2 : getMeta m oldEncryptionMetaKey with _ | v
      · simp [checkRbdImageEncrypted, MigrateMetadata, h1, h2]
      · simp [checkRbdImageEncrypted, MigrateMetadata, h1, h2]
    · simp [checkRbdImageEncrypted, MigrateMetadata, h1]
  · intro m h1 h2
    simp [checkRbdImageEncrypted, MigrateMetadata, h1, h2]
  · intro m v h1
    simp [checkRbdImageEncrypted, MigrateMetadata, h1]
  · intro m v h1 h2
    have hmig : MigrateMetadata m oldEncryptionMetaKey encryptionMetaKey
        rbdImageEncryptionUnknown =
        (.ok v, setMeta m encryptionMetaKey v,
          [.get encryptionMetaKey, .get oldEncryptionMetaKey,
            .set encryptionMetaKey v]) := by
      rw [MigrateMetadata, h1, h2]
    rw [checkRbdImageEncrypted, hmig]
    dsimp only
    refine ⟨rfl, ?_⟩
    simp [getMeta, setMeta]

/-- Witness for C7 (amended): a legacy-keyed "encrypted" value is read as
Encrypted and migrated to the canonical key. -/
theorem C7_amended_witness :
    (checkRbdImageEncrypted [(oldEncryptionMetaKey, "encrypted")]).1.1 =
      String.mk (goTrimSpaceChars "encrypted".data) ∧
    getMeta (checkRbdImageEncrypted [(oldEncryptionMetaKey, "encrypted")]).2
      encryptionMetaKey = some "encrypted" :=
  C7_amended_checkRbdImageEncrypted.2.2.2 [(oldEncryptionMetaKey, "encrypted")]
    "encrypted" (by rfl) (by rfl)

/-- C9: the DEK-store operations guard on the image's own VolID: with an
empty or different VolID they fail and neither read nor write any
metadata (empty access trace, image unchanged); a nonempty access trace
implies the ids matched, so no volume reaches another volume's DEK;
`RemoveDEK` never touches metadata at all. -/
theorem C9_DEK_volid_guard :
    (∀ (ri : rbdImage) (volumeID dek : String),
      (ri.VolID = "" ∨ ri.VolID ≠ volumeID) →
      (∃ e, (StoreDEK ri volumeID dek).1 = .error e) ∧
      (StoreDEK ri volumeID dek).2.1 = ri ∧ (StoreDEK ri volumeID dek).2.2 = [] ∧
      (∃ e, (FetchDEK ri volumeID).1 = .error e) ∧
      (FetchDEK ri volumeID).2.1 = ri ∧ (FetchDEK ri volumeID).2.2 = [] ∧
      (∃ e, (RemoveDEK ri volumeID).1 = .error e) ∧
      (RemoveDEK ri volumeID).2.1 = ri ∧ (RemoveDEK ri volumeID).2.2 = []) ∧
    (∀ (ri : rbdImage) (volumeID dek : String),
      ((StoreDEK ri volumeID dek).2.2 ≠ [] ∨ (FetchDEK ri volumeID).2.2 ≠ []) →
      ri.VolID = volumeID ∧ ri.VolID ≠ "") ∧
    (∀ (ri : rbdImage) (volumeID : String), (RemoveDEK ri volumeID).2.2 = []) := by
  refine ⟨?_, ?_, ?_⟩
  · intro ri volumeID dek h
    by_cases hz : ri.VolID = ""
    · simp [StoreDEK, FetchDEK, RemoveDEK, hz]
    · have hne : ri.VolID ≠ volumeID := by
        rcases h with h | h
        · exact absurd h hz
        · exact h
      simp [StoreDEK, FetchDEK, RemoveDEK, hz, hne]
  · intro ri volumeID dek h
    by_cases hz : ri.VolID = ""
    · simp [StoreDEK, FetchDEK, hz] at h
    · by_cases heq : ri.VolID = volumeID
      · exact ⟨heq, hz⟩
      · simp [StoreDEK, FetchDEK, hz, heq] at h
  · intro ri volumeID
    rw [RemoveDEK]
    split_ifs <;> rfl

/-- Witness for C9 at a concrete mismatched volume id. -/
theorem C9_witness :
    (∃ e, (StoreDEK ⟨"vol-1", []⟩ "vol-2" "secret").1 = .error e) ∧
    (StoreDEK ⟨"vol-1", []⟩ "vol-2" "secret").2.1 = ⟨"vol-1", []⟩ ∧
    (StoreDEK ⟨"vol-1", []⟩ "vol-2" "secret").2.2 = [] ∧
    (∃ e, (FetchDEK ⟨"vol-1", []⟩ "vol-2").1 = .error e) ∧
    (FetchDEK ⟨"vol-1", []⟩ "vol-2").2.1 = ⟨"vol-1", []⟩ ∧
    (FetchDEK ⟨"vol-1", []⟩ "vol-2").2.2 = [] ∧
    (∃ e, (RemoveDEK ⟨"vol-1", []⟩ "vol-2").1 = .error e) ∧
    (RemoveDEK ⟨"vol-1", []⟩ "vol-2").2.1 = ⟨"vol-1", []⟩ ∧
    (RemoveDEK ⟨"vol-1", []⟩ "vol-2").2.2 = [] :=
  C9_DEK_volid_guard.1 ⟨"vol-1", []⟩ "vol-2" "secret" (Or.inr (by decide))

/-- The deferred unlock: whatever the plan, a rotation attempt that starts
with the lock free ends with the lock free. -/
theorem rotate_releases_lock (blockEnc : Bool) (m : ImgMeta) (plan : RotPlan)
    (newPass : String) (env : RotEnv) (h : env.lockHeld = false) :
    (RotateEncryptionKey blockEnc m plan newPass env).2.lockHeld = false := by
  rw [RotateEncryptionKey]
  split
  · exact h
  · split
    · exact h
    · split_ifs <;> first | exact h | rfl

/-- C1: key rotation on a block-encrypted volume in state Encrypted, with
slot 0 holding the old passphrase, the KMS returning it, and a fresh
distinct new passphrase.  (1) If every step succeeds the device opens with
the new passphrase and not with the old one and the KMS holds the new
passphrase.  (2) If only the backup-removal step fails, the device still
opens with the new passphrase.  (3) If any step before the KMS update
fails, the run errors, the device still opens with the old passphrase and
the KMS still returns it.  In every case the lock, never held before the
call, is not held after it — each failure aborts the remaining steps and
the deferred unlock runs. -/
theorem C1_key_rotation (m : ImgMeta) (old newPass : String)
    (hm : getMeta m encryptionMetaKey = some "encrypted")
    (hne : newPass ≠ old) :
    (RotateEncryptionKey true m RotPlan.allOk newPass
        ⟨⟨some old, none⟩, old, false⟩ =
        (.ok (), ⟨⟨some newPass, none⟩, newPass, false⟩) ∧
      canOpen ⟨some newPass, none⟩ newPass = true ∧
      canOpen ⟨some newPass, none⟩ old = false) ∧
    (RotateEncryptionKey true m { RotPlan.allOk with removeBackupOk := false }
        newPass ⟨⟨some old, none⟩, old, false⟩ =
        (.error "failed to remove the backup key from luksSlot1",
          ⟨⟨some newPass, some old⟩, newPass, false⟩) ∧
      canOpen ⟨some newPass, some old⟩ newPass = true) ∧
    (∀ plan : RotPlan,
      plan.openIoctxOk = false ∨ plan.lockOk = false ∨ plan.pathFound = false ∨
        plan.fetchOk = false ∨ plan.addBackupOk = false ∨ plan.genOk = false ∨
        plan.installOk = false →
      (∃ e, (RotateEncryptionKey true m plan newPass
          ⟨⟨some old, none⟩, old, false⟩).1 = .error e) ∧
      canOpen (RotateEncryptionKey true m plan newPass
          ⟨⟨some old, none⟩, old, false⟩).2.luks old = true ∧
      (RotateEncryptionKey true m plan newPass
          ⟨⟨some old, none⟩, old, false⟩).2.kms = old ∧
      (RotateEncryptionKey true m plan newPass
          ⟨⟨some old, none⟩, old, false⟩).2.lockHeld = false) ∧
    (∀ plan : RotPlan,
      (RotateEncryptionKey true m plan newPass
          ⟨⟨some old, none⟩, old, false⟩).2.lockHeld = false) := by
  have hchk : (checkRbdImageEncrypted m).1 = (rbdImageEncrypted, none) := by
    simp [checkRbdImageEncrypted, MigrateMetadata, hm]
    rfl
  refine ⟨⟨?_, by simp [canOpen], by simp [canOpen, hne]⟩, ⟨?_, by simp [canOpen]⟩,
    ?_, fun plan => rotate_releases_lock true m plan newPass _ rfl⟩
  · rw [RotateEncryptionKey, hchk]
    simp +decide [RotPlan.allOk, rotateLocked, luksAddKey, luksRemoveKey, canOpen,
      luksSlot0, luksSlot1, rbdImageEncrypted]
  · rw [RotateEncryptionKey, hchk]
    simp +decide [RotPlan.allOk, rotateLocked, luksAddKey, luksRemoveKey, canOpen,
      luksSlot0, luksSlot1, rbdImageEncrypted]
  · intro plan h
    obtain ⟨o, lk, pf, fe, ab, gn, ins, km, rm⟩ := plan
    dsimp only at h
    cases o <;> cases lk <;> cases pf <;> cases fe <;> cases ab <;> cases gn <;>
      cases ins <;>
      simp_all +decide [RotateEncryptionKey, rotateLocked, luksAddKey,
        luksRemoveKey, canOpen, hchk, luksSlot0, luksSlot1, rbdImageEncrypted]

/-- Witness for C1 at concrete passphrases and metadata. -/
theorem C1_witness :
    RotateEncryptionKey true [(encryptionMetaKey, "encrypted")] RotPlan.allOk
        "new-pass" ⟨⟨some "old-pass", none⟩, "old-pass", false⟩ =
      (.ok (), ⟨⟨some "new-pass", none⟩, "new-pass", false⟩) ∧
    canOpen ⟨some "new-pass", none⟩ "new-pass" = true ∧
    canOpen ⟨some "new-pass", none⟩ "old-pass" = false :=
  (C1_key_rotation [(encryptionMetaKey, "encrypted")] "old-pass" "new-pass"
    (by rfl) (by decide)).1

end CephCsi
